import Mathlib

/-!
Verification of the strategy rule engine of the Trading-Strategy-Platform
repository (src/services/backtesting-service/src/strategies.py).

The Python module operates on JSON-like dynamically typed values (nested
dicts, lists, strings and numbers).  We embed those values as the inductive
type `Val` below; Python dict insertion order is preserved by using
association lists.  Python numbers are embedded as exact rationals (`Rat`):
every claim under study is about structure, ordering, comparison direction
and error flow, not about binary floating-point rounding, and every
arithmetic identity checked below is exact in both models.

Python runtime errors (TypeError on `in` over a non-container, KeyError,
AttributeError on `.get`/`.items` of a non-dict, ValueError of `max([])`
and of a failed `float(...)`, IndexError of an out-of-range lookup) are
embedded with the `Except PyErr` monad; the `try/except` blocks of the
source become explicit recoveries.
-/

/-- Kinds of Python runtime errors raised by the embedded operations. -/
inductive PyErr : Type where
  | typeError : PyErr
  | keyError : PyErr
  | attributeError : PyErr
  | valueError : PyErr
  | indexError : PyErr
deriving DecidableEq, Repr

/-- JSON-like Python values: numbers, strings, booleans, None, lists and
(insertion-ordered) dicts with string keys. -/
inductive Val : Type where
  | num : Rat → Val
  | str : String → Val
  | bool : Bool → Val
  | null : Val
  | list : List Val → Val
  | dict : List (String × Val) → Val

/-- First-match lookup in an association list, the semantics of indexing a
Python dict with string keys. -/
def dictGet : List (String × Val) → String → Option Val
  | [], _ => none
  | (k, v) :: rest, key => if k == key then some v else dictGet rest key

/-- `key in d` for a Python dict `d`. -/
def hasKey (d : List (String × Val)) (key : String) : Bool :=
  d.any (fun kv => kv.1 == key)

/-- Substring test on character lists: Python's `pat in s` for strings. -/
def charsContain : List Char → List Char → Bool
  | s, pat =>
    if pat.isPrefixOf s then true
    else match s with
      | [] => false
      | _ :: t => charsContain t pat

/-- Python's `pat in s` for strings `s`. -/
def strContains (s pat : String) : Bool :=
  charsContain s.toList pat.toList

/-- Python's `s.startswith(pat)`, via character lists so that it reduces
in the kernel. -/
def strStartsWith (s pat : String) : Bool :=
  pat.toList.isPrefixOf s.toList

/-- Decimal digit value of a character, via its code point. -/
def digitVal (c : Char) : Option Nat :=
  let n := c.toNat
  if 48 ≤ n && n ≤ 57 then some (n - 48) else none

/-- Accumulating decimal parser over characters. -/
def parseDigitsAux : List Char → Nat → Option Nat
  | [], acc => some acc
  | c :: rest, acc =>
      match digitVal c with
      | some d => parseDigitsAux rest (acc * 10 + d)
      | none => none

/-- Parse a non-empty all-digit character list as a natural number. -/
def parseDigits : List Char → Option Nat
  | [] => none
  | cs => parseDigitsAux cs 0

/-- Parse an optionally negated decimal integer literal. -/
def parseIntVal (s : String) : Option Int :=
  match s.toList with
  | '-' :: rest => (parseDigits rest).map (fun n => -(n : Int))
  | cs => (parseDigits cs).map (fun n => (n : Int))

/-- Python's `key in v` for a string key: dict key membership, substring
test on strings, element equality on lists; TypeError on scalars. -/
def pyContains : Val → String → Except PyErr Bool
  | .dict d, key => .ok (hasKey d key)
  | .str s, key => .ok (strContains s key)
  | .list l, key =>
      .ok (l.any (fun e => match e with | .str s => s == key | _ => false))
  | _, _ => .error .typeError

/-- Python's `v[key]` for a string key: dict lookup (KeyError when absent);
TypeError when `v` is a string, list or scalar. -/
def pyGetItem : Val → String → Except PyErr Val
  | .dict d, key =>
      match dictGet d key with
      | some v => .ok v
      | none => .error .keyError
  | _, _ => .error .typeError

/-- Python's `v.get(key, default)`: AttributeError when `v` is not a dict. -/
def pyGet : Val → String → Val → Except PyErr Val
  | .dict d, key, dflt => .ok ((dictGet d key).getD dflt)
  | _, _, _ => .error .attributeError

/-- Python's `v.items()`: AttributeError when `v` is not a dict. -/
def pyItems : Val → Except PyErr (List (String × Val))
  | .dict d => .ok d
  | _ => .error .attributeError

/-- Python's `for x in v`: elements of a list, one-character strings for a
string, the keys for a dict; TypeError on scalars. -/
def pyIter : Val → Except PyErr (List Val)
  | .list l => .ok l
  | .str s => .ok (s.toList.map (fun c => .str (String.singleton c)))
  | .dict d => .ok (d.map (fun kv => .str kv.1))
  | _ => .error .typeError

/-- Python truthiness of a value. -/
def pyTruthy : Val → Bool
  | .num q => q != 0
  | .str s => s != ""
  | .bool b => b
  | .null => false
  | .list l => !l.isEmpty
  | .dict d => !d.isEmpty

/-- Python `f"{v}"` conversion to a string, restricted to the values the
rule trees use for `_sequence` indices: strings pass through, integers
print in decimal, booleans and None print as in Python.  The conversions
of non-integer rationals and of composite values are abstracted by opaque
placeholder strings; no claim under study exercises them. -/
def pyFStr : Val → String
  | .str s => s
  | .num q => if q.den == 1 then toString q.num else "?float"
  | .bool b => if b then "True" else "False"
  | .null => "None"
  | .list _ => "?list"
  | .dict _ => "?dict"

/-- Python `float(v)`: numbers and booleans convert, integer-literal
strings parse (`float("30")`), anything else raises.  (Python also parses
fractional literal strings; no claim under study involves them.) -/
def pyFloat : Val → Except PyErr Rat
  | .num q => .ok q
  | .bool b => .ok (if b then 1 else 0)
  | .str s =>
      match parseIntVal s with
      | some n => .ok (n : Rat)
      | none => .error .valueError
  | _ => .error .typeError

/-- The slice of `self.data` that `DynamicStrategy` reads: the computed
indicator columns of `self.data.df` (name, series) and the closing-price
series `self.data.Close`. -/
structure MarketData : Type where
  columns : List (String × List Rat)
  close : List Rat

/-- Body of `DynamicStrategy._get_indicator_value` before its `except`
clause: substring-match the indicator name against the column names, read
the first matching column at `i` (IndexError out of range), else fall back
to the closing price for the `"Price"` pseudo-indicator, else `0.0`. -/
def get_indicator_value_body (md : MarketData) (indicator_name : String)
    ( settings : Val) (i : Nat) : Except PyErr Rat :=
  match md.columns.filter (fun c => strContains c.1 indicator_name) with
  | c :: _ =>
      match c.2.get? i with
      | some x => .ok x
      | none => .error .indexError
  | [] =>
      if indicator_name == "Price" then
        match md.close.get? i with
        | some x => .ok x
        | none => .error .indexError
      else .ok 0

/-- `DynamicStrategy._get_indicator_value`: the body above with its
`except Exception` clause, which logs and returns `0.0`. -/
def get_indicator_value (md : MarketData) (indicator_name : String)
    ( settings : Val) (i : Nat) : Rat :=
  match get_indicator_value_body md indicator_name settings i with
  | .ok x => x
  | .error _ => 0

/-- The six-way comparison chain of `_evaluate_rule` (lines 175-188): a
non-string or unsupported symbol falls through to `return False`. -/
def evalCond (condition_symbol : Val) (indicator_value condition_value : Rat) : Bool :=
  match condition_symbol with
  | .str s =>
      if s == "<" then decide (indicator_value < condition_value)
      else if s == ">" then decide (indicator_value > condition_value)
      else if s == "<=" then decide (indicator_value ≤ condition_value)
      else if s == ">=" then decide (indicator_value ≥ condition_value)
      else if s == "==" then decide (indicator_value = condition_value)
      else if s == "!=" then decide (indicator_value ≠ condition_value)
      else false
  | _ => false

/-- Body of `DynamicStrategy._evaluate_rule` before its `except` clause. -/
def evaluate_rule_body (md : MarketData) (i : Nat) (rule : Val) : Except PyErr Bool := do
  let indicator ← pyGet rule "indicator" (.dict [])
  let condition ← pyGet rule "condition" (.dict [])
  let indicator_name ← pyGet indicator "name" .null
  let indicatorSettings ← pyGet indicator "indicatorSettings" (.dict [])
  let indicator_value := get_indicator_value md (pyFStr indicator_name) indicatorSettings i
  let condition_value_raw ← pyGet condition "value" (.num 0)
  let condition_value ← pyFloat condition_value_raw
  let condition_symbol ← pyGet condition "symbol" (.str "==")
  return evalCond condition_symbol indicator_value condition_value

/-- `DynamicStrategy._evaluate_rule`: any error inside the body is caught
and degrades the rule to `False`. -/
def evaluate_rule (md : MarketData) (i : Nat) (rule : Val) : Bool :=
  match evaluate_rule_body md i rule with
  | .ok b => b
  | .error _ => false

/-- One step of the operator application of both evaluation loops: an
absent key, a non-string value or a string other than AND/OR leaves the
accumulator unchanged. -/
def applyOpVal (op : Option Val) (acc r : Bool) : Bool :=
  match op with
  | some (.str "AND") => acc && r
  | some (.str "OR") => acc || r
  | _ => acc

/-- The operator loop of `_evaluate_complex_rules` (lines 119-128): term
`j` of the results list is combined using the tree entry `operator{j-1}`. -/
def applyOps (d : List (String × Val)) (acc : Bool) : List Bool → Nat → Bool
  | [], _ => acc
  | r :: rs, j =>
      applyOps d (applyOpVal (dictGet d ("operator" ++ toString (j - 1))) acc r) rs (j + 1)

/-- The operator loop of `_evaluate_simple_rules` (lines 148-156): term `j`
is combined using `operators[j-1]` when `j-1 < len(operators)`, else
skipped. -/
def applySimpleOps (operators : List Val) (acc : Bool) : List Bool → Nat → Bool
  | [], _ => acc
  | r :: rs, j =>
      applySimpleOps operators (applyOpVal (operators.get? (j - 1)) acc r) rs (j + 1)

/-- The collection loop of `_evaluate_simple_rules` (lines 137-141): one
pass over the dict items, rule-prefixed keys contribute evaluated terms,
operator-prefixed keys contribute operator values, everything else
(including nested groups) is ignored. -/
def collectSimple (md : MarketData) (i : Nat) :
    List (String × Val) → List Bool × List Val
  | [] => ([], [])
  | (k, v) :: rest =>
      let (results, operators) := collectSimple md i rest
      if strStartsWith k "rule" then (evaluate_rule md i v :: results, operators)
      else if strStartsWith k "operator" then (results, v :: operators)
      else (results, operators)

/-- `DynamicStrategy._evaluate_simple_rules` (lines 131-157). -/
def evaluate_simple_rules (md : MarketData) (i : Nat) (d : List (String × Val)) : Bool :=
  match collectSimple md i d with
  | ([], _) => false
  | (r :: rs, operators) => applySimpleOps operators r rs 1

/-- A dict value is smaller than its dict, for termination of the
recursive tree walks. -/
def sizeOf_lt_of_dictGet {d : List (String × Val)} {k : String} {v : Val}
    (h : dictGet d k = some v) : sizeOf v < sizeOf d := by
  induction d with
  | nil => simp [dictGet] at h
  | cons hd tl ih =>
      obtain ⟨k', v'⟩ := hd
      by_cases hk : (k' == k)
      · simp [dictGet, hk] at h
        subst h
        simp
        omega
      · simp [dictGet, hk] at h
        have := ih h
        simp
        omega

/-- `"_sequence" in rules and any(k.startswith("operator") for k in rules)`,
the dispatch guard of `_evaluate_rules` (line 83). -/
def hasSeqAndOp (d : List (String × Val)) : Bool :=
  hasKey d "_sequence" && d.any (fun kv => strStartsWith kv.1 "operator")

mutual

/-- `DynamicStrategy._evaluate_rules` (lines 81-88).  A non-dict argument
raises in Python on one of `in`, `.get` or `.items()` whichever branch is
reached; all those paths are collapsed into an immediate error. -/
def evaluate_rules (md : MarketData) (i : Nat) : Val → Except PyErr Bool
  | .dict d =>
      if hasSeqAndOp d then evaluate_complex_rules md i d
      else .ok (evaluate_simple_rules md i d)
  | _ => .error .typeError
termination_by v => (sizeOf v, 2, 0)
decreasing_by
  apply Prod.Lex.left
  simp

/-- `DynamicStrategy._evaluate_complex_rules` (lines 90-129): iterate the
`_sequence` items, collect term results, then fold the keyed operators. -/
def evaluate_complex_rules (md : MarketData) (i : Nat) (d : List (String × Val)) :
    Except PyErr Bool := do
  let sequence := (dictGet d "_sequence").getD (.list [])
  let items ← pyIter sequence
  let results ← evalSeq md i d items
  match results with
  | [] => return false
  | r :: rs => return (applyOps d r rs 1)
termination_by (sizeOf d, 1, 0)
decreasing_by
  apply Prod.Lex.right
  apply Prod.Lex.left
  omega

/-- The sequence loop of `_evaluate_complex_rules` (lines 97-113): each
item contributes the evaluation of the referenced rule (`_evaluate_rule`)
or group (recursive `_evaluate_rules`) when the referenced key exists;
operator items and unreferenced items contribute nothing; a non-dict item
raises AttributeError on `.get`. -/
def evalSeq (md : MarketData) (i : Nat) (d : List (String × Val)) :
    List Val → Except PyErr (List Bool)
  | [] => .ok []
  | item :: rest =>
      match item with
      | .dict itemD =>
          let item_type := (dictGet itemD "type").getD .null
          let item_index := (dictGet itemD "index").getD .null
          let typeStr : Option String :=
            match item_type with | .str s => some s | _ => none
          if typeStr == some "rule" then
            match dictGet d ("rule" ++ pyFStr item_index) with
            | some rv => do
                let tail ← evalSeq md i d rest
                return (evaluate_rule md i rv :: tail)
            | none => evalSeq md i d rest
          else if typeStr == some "group" then
            match hg : dictGet d ("group" ++ pyFStr item_index) with
            | some gv => do
                let b ← evaluate_rules md i gv
                let tail ← evalSeq md i d rest
                return (b :: tail)
            | none => evalSeq md i d rest
          else
            evalSeq md i d rest
      | _ => .error .attributeError
termination_by items => (sizeOf d, 0, items.length)
decreasing_by
  all_goals first
    | (apply Prod.Lex.left
       exact sizeOf_lt_of_dictGet hg)
    | (apply Prod.Lex.right
       apply Prod.Lex.right
       simp)

end

/-- `DynamicStrategy._calculate_position_size` (lines 218-232). -/
def calculate_position_size (position_sizing : String)
    (risk_percentage stop_loss_pct equity price : Rat) : Rat :=
  if position_sizing == "fixed" then 0.1 * equity / price
  else if position_sizing == "percentage" then equity * risk_percentage / 100 / price
  else if position_sizing == "risk_based" then
    if stop_loss_pct == 0 then 0.1 * equity / price
    else equity * risk_percentage / 100 / (price * stop_loss_pct / 100)
  else 0.1 * equity / price

/-- Python `max(xs)` over a number sequence: ValueError when empty. -/
def listMax : List Rat → Option Rat
  | [] => none
  | h :: t => some (t.foldl max h)

/-- `self.data.High[entry : i+1]`: the high prices over `[entry, i]`. -/
def highSlice (highs : List Rat) (entry i : Nat) : List Rat :=
  (highs.drop entry).take (i + 1 - entry)

/-- The trailing-stop block of `DynamicStrategy.next` (lines 261-268): when
`trailing_stop_pct > 0`, the candidate stop is
`max(High over [entry, i]) * (1 - trailing_stop_pct/100)` and it replaces
the active stop only when the stop is unset (`hasattr` fails) or the
candidate is strictly higher.  `max` of an empty slice raises ValueError. -/
def trailing_update (trailing_stop_pct : Rat) (highs : List Rat)
    (entry i : Nat) (stop_loss : Option Rat) : Except PyErr (Option Rat) :=
  if 0 < trailing_stop_pct then
    match listMax (highSlice highs entry i) with
    | none => .error .valueError
    | some highest_price =>
        let new_stop := highest_price * (1 - trailing_stop_pct / 100)
        match stop_loss with
        | none => .ok (some new_stop)
        | some s => .ok (some (if s < new_stop then new_stop else s))
  else .ok stop_loss

/-- The trailing-stop block iterated over successive candle indices while
the position stays open. -/
def run_trailing (trailing_stop_pct : Rat) (highs : List Rat) (entry : Nat) :
    List Nat → Option Rat → Except PyErr (Option Rat)
  | [], stop => .ok stop
  | i :: rest, stop => do
      let stop' ← trailing_update trailing_stop_pct highs entry i stop
      run_trailing trailing_stop_pct highs entry rest stop'

/-- `validate_rule` (lines 363-389). -/
def validate_rule (rule : Val) : Except PyErr (Bool × String) := do
  let hasIndicator ← pyContains rule "indicator"
  if !hasIndicator then return (false, "Rule must have an indicator")
  let hasCondition ← pyContains rule "condition"
  if !hasCondition then return (false, "Rule must have a condition")
  let indicator ← pyGetItem rule "indicator"
  let hasName ← pyContains indicator "name"
  if !hasName then return (false, "Indicator must have a name")
  let condition ← pyGetItem rule "condition"
  let hasValue ← pyContains condition "value"
  if !hasValue then return (false, "Condition must have a value")
  let hasSymbol ← pyContains condition "symbol"
  if !hasSymbol then return (false, "Condition must have a symbol")
  let sym ← pyGetItem condition "symbol"
  let symOk : Bool :=
    match sym with
    | .str s => s == "<" || s == ">" || s == "<=" || s == ">=" || s == "==" || s == "!="
    | _ => false
  if !symOk then
    return (false, "Condition symbol must be one of: <, >, <=, >=, ==, !=")
  return (true, "Rule is valid")

mutual

/-- `validate_rules` (lines 304-361).  A non-dict argument raises in
Python: a string or list either fails `rules["_sequence"]` with TypeError
or `.items()` with AttributeError, a scalar fails `in` with TypeError; all
collapse to an immediate error. -/
def validate_rules (rules : Val) : Except PyErr (Bool × String) :=
  match rules with
  | .dict d =>
      match dictGet d "_sequence" with
      | some seqV => do
          let items ← pyIter seqV
          valSeqLoop d items
      | none => valSimpleLoop d
  | _ => .error .typeError
termination_by (sizeOf rules, 2, 0)
decreasing_by
  · apply Prod.Lex.left
    simp
  · apply Prod.Lex.left
    simp

/-- The `_sequence` validation loop (lines 311-344): each item must carry
`type` and `index`, the referenced key of the matching kind must exist,
referenced rules are validated individually, referenced groups are
validated recursively, referenced operators must be AND or OR; items of
any other type are skipped. -/
def valSeqLoop (d : List (String × Val)) : List Val → Except PyErr (Bool × String)
  | [] => .ok (true, "Rules structure is valid")
  | item :: rest => do
      let hasType ← pyContains item "type"
      let hasIndex ← if hasType then pyContains item "index" else pure false
      if !hasType || !hasIndex then
        return (false, "Sequence items must have type and index")
      let item_type ← pyGetItem item "type"
      let item_index ← pyGetItem item "index"
      let typeStr : Option String :=
        match item_type with | .str s => some s | _ => none
      if typeStr == some "rule" then
        let rule_key := "rule" ++ pyFStr item_index
        match dictGet d rule_key with
        | none => return (false, "Referenced rule " ++ rule_key ++ " not found")
        | some rv => do
            let vm ← validate_rule rv
            if !vm.1 then return (false, vm.2)
            valSeqLoop d rest
      else if typeStr == some "group" then
        let group_key := "group" ++ pyFStr item_index
        match hg : dictGet d group_key with
        | none => return (false, "Referenced group " ++ group_key ++ " not found")
        | some gv => do
            let vm ← validate_rules gv
            if !vm.1 then return (false, vm.2)
            valSeqLoop d rest
      else if typeStr == some "operator" then
        let op_key := "operator" ++ pyFStr item_index
        match dictGet d op_key with
        | none => return (false, "Referenced operator " ++ op_key ++ " not found")
        | some ov =>
            let opOk : Bool :=
              match ov with
              | .str s => s == "AND" || s == "OR"
              | _ => false
            if !opOk then return (false, "Operator " ++ op_key ++ " must be AND or OR")
            valSeqLoop d rest
      else
        valSeqLoop d rest
termination_by items => (sizeOf d, 0, items.length)
decreasing_by
  all_goals first
    | (apply Prod.Lex.left
       exact sizeOf_lt_of_dictGet hg)
    | (apply Prod.Lex.right
       apply Prod.Lex.right
       simp)

/-- The keyed validation loop without `_sequence` (lines 348-359):
rule-prefixed keys are validated individually, operator-prefixed keys must
hold AND or OR, group-prefixed keys are validated recursively, other keys
are skipped. -/
def valSimpleLoop : List (String × Val) → Except PyErr (Bool × String)
  | [] => .ok (true, "Rules structure is valid")
  | (k, v) :: rest => do
      if strStartsWith k "rule" then
        let vm ← validate_rule v
        if !vm.1 then return (false, vm.2)
        valSimpleLoop rest
      else if strStartsWith k "operator" then
        let opOk : Bool :=
          match v with
          | .str s => s == "AND" || s == "OR"
          | _ => false
        if !opOk then return (false, "Operator " ++ k ++ " must be AND or OR")
        valSimpleLoop rest
      else if strStartsWith k "group" then
        let vm ← validate_rules v
        if !vm.1 then return (false, vm.2)
        valSimpleLoop rest
      else
        valSimpleLoop rest
termination_by l => (sizeOf l, 1, 0)
decreasing_by
  all_goals first
    | (apply Prod.Lex.left
       simp
       omega)
    | (apply Prod.Lex.left
       simp)

end

/-- `validate_strategy` (lines 284-302): requires a truthy `buyRules` or
`sellRules`, then validates whichever of the two is present. -/
def validate_strategy (strategy_config : Val) : Except PyErr (Bool × String) := do
  let buyV ← pyGet strategy_config "buyRules" .null
  let sellV ← pyGet strategy_config "sellRules" .null
  if !pyTruthy buyV && !pyTruthy sellV then
    return (false, "Strategy must have at least buyRules or sellRules")
  let hasBuy ← pyContains strategy_config "buyRules"
  if hasBuy then
    let br ← pyGetItem strategy_config "buyRules"
    let vm ← validate_rules br
    if !vm.1 then return (false, "Invalid buy rules: " ++ vm.2)
  let hasSell ← pyContains strategy_config "sellRules"
  if hasSell then
    let sr ← pyGetItem strategy_config "sellRules"
    let vm ← validate_rules sr
    if !vm.1 then return (false, "Invalid sell rules: " ++ vm.2)
  return (true, "Strategy structure is valid")

/-- Spec (spec.md 4.4 steps 4-5): combine a results list strictly
left-to-right with no operator precedence, the accumulator starting at
`results[0]` and term `j` folded in with the operator at position `j-1`
supplied by `ops`; an empty results list gives `false`. -/
def specCombine (ops : Nat → Option Val) : List Bool → Bool
  | [] => false
  | r :: rs =>
      (List.enumFrom 0 rs).foldl (fun acc p => applyOpVal (ops p.1) acc p.2) r

/-- Spec (spec.md 3, 4.1) rule validity restricted to well-structured
dicts (with the name requirement weakened to key presence, which is what
the code checks): the rule carries `indicator.name`, `condition.value` and
a `condition.symbol` among the six comparison symbols. -/
def specValidRule (v : Val) : Bool :=
  match v with
  | .dict r =>
      (match dictGet r "indicator" with
       | some (.dict ind) => hasKey ind "name"
       | _ => false) &&
      (match dictGet r "condition" with
       | some (.dict c) =>
           (dictGet c "value").isSome &&
           (match dictGet c "symbol" with
            | some (.str s) =>
                s == "<" || s == ">" || s == "<=" || s == ">=" || s == "==" || s == "!="
            | _ => false)
       | _ => false)
  | _ => false

/-- Spec (spec.md 3): a `_sequence` item is a `{type, index}` dict whose
reference resolves to a present key of matching type, with referenced
rules valid, referenced groups recursively valid (via the supplied
recursion `rec`) and referenced operators AND or OR. -/
def specValidItem (rec : Val → Bool) (d : List (String × Val)) (it : Val) : Bool :=
  match it with
  | .dict itd =>
      (match dictGet itd "type", dictGet itd "index" with
       | some (.str ty), some idx =>
           if ty == "rule" then
             match dictGet d ("rule" ++ pyFStr idx) with
             | some rv => specValidRule rv
             | none => false
           else if ty == "group" then
             match dictGet d ("group" ++ pyFStr idx) with
             | some gv => rec gv
             | none => false
           else if ty == "operator" then
             match dictGet d ("operator" ++ pyFStr idx) with
             | some (.str ov) => ov == "AND" || ov == "OR"
             | _ => false
           else false
       | _, _ => false)
  | _ => false

/-- Spec (spec.md 4.1) fallback branch: a keyed entry is valid when
rule-prefixed keys hold valid rules, operator-prefixed keys hold AND or
OR, and group-prefixed keys hold recursively valid trees. -/
def specValidEntry (rec : Val → Bool) (kv : String × Val) : Bool :=
  if strStartsWith kv.1 "rule" then specValidRule kv.2
  else if strStartsWith kv.1 "operator" then
    (match kv.2 with
     | .str s => s == "AND" || s == "OR"
     | _ => false)
  else if strStartsWith kv.1 "group" then rec kv.2
  else true

/-- Spec (spec.md 3, 4.1) validity of a rule tree, with a nesting-depth
fuel so the definition is structural; a tree valid at some fuel is valid
at every larger fuel.  A valid tree is a dict whose `_sequence`, when
present, is a list of valid items, and whose keyed entries are otherwise
all valid. -/
def specValidTree : Nat → Val → Bool
  | 0, _ => false
  | n + 1, .dict d =>
      (match dictGet d "_sequence" with
       | some (.list items) => items.all (specValidItem (specValidTree n) d)
       | some _ => false
       | none => d.all (specValidEntry (specValidTree n)))
  | _ + 1, _ => false

/-- Well-typedness of a rule value, sufficient for `validate_rule` to run
without raising: a dict whose `indicator` and `condition` fields, when
present, are dicts. -/
def specWTRule (v : Val) : Bool :=
  match v with
  | .dict r =>
      (match dictGet r "indicator" with
       | some (.dict _) => true
       | some _ => false
       | none => true) &&
      (match dictGet r "condition" with
       | some (.dict _) => true
       | some _ => false
       | none => true)
  | _ => false

/-- Well-typedness of a `_sequence` item: a dict whose referenced rule,
when it exists, is well-typed, and whose referenced group, when it exists,
is recursively well-typed. -/
def specWTItem (rec : Val → Bool) (d : List (String × Val)) (it : Val) : Bool :=
  match it with
  | .dict itd =>
      (match dictGet itd "type", dictGet itd "index" with
       | some (.str ty), some idx =>
           if ty == "rule" then
             match dictGet d ("rule" ++ pyFStr idx) with
             | some rv => specWTRule rv
             | none => true
           else if ty == "group" then
             match dictGet d ("group" ++ pyFStr idx) with
             | some gv => rec gv
             | none => true
           else true
       | _, _ => true)
  | _ => false

/-- Well-typedness of a keyed entry: rule-prefixed keys hold well-typed
rules, group-prefixed keys hold recursively well-typed trees; operator
values and unrecognised keys may hold anything. -/
def specWTEntry (rec : Val → Bool) (kv : String × Val) : Bool :=
  if strStartsWith kv.1 "rule" then specWTRule kv.2
  else if strStartsWith kv.1 "operator" then true
  else if strStartsWith kv.1 "group" then rec kv.2
  else true

/-- Well-typedness of a rule tree (fuel-indexed): a dict whose
`_sequence`, when present, is a list of well-typed items and whose keyed
entries are otherwise well-typed.  Well-typedness restricts entry values
to the container shapes the validator's dict operations expect. -/
def specWT : Nat → Val → Bool
  | 0, _ => false
  | n + 1, .dict d =>
      (match dictGet d "_sequence" with
       | some (.list items) => items.all (specWTItem (specWT n) d)
       | some _ => false
       | none => d.all (specWTEntry (specWT n)))
  | _ + 1, _ => false

/-- A keyed entry that `valSimpleLoop` passes without returning: used to
state the fail-fast property. -/
def entryPasses (kv : String × Val) : Prop :=
  (strStartsWith kv.1 "rule" = true →
      validate_rule kv.2 = .ok (true, "Rule is valid")) ∧
  (strStartsWith kv.1 "rule" = false → strStartsWith kv.1 "operator" = true →
      ∃ s, kv.2 = .str s ∧ (s = "AND" ∨ s = "OR")) ∧
  (strStartsWith kv.1 "rule" = false → strStartsWith kv.1 "operator" = false →
      strStartsWith kv.1 "group" = true →
      validate_rules kv.2 = .ok (true, "Rules structure is valid"))

/-- Market data with no indicator columns and a single candle closing at 10. -/
def mdClose10 : MarketData := ⟨[], [10]⟩

/-- A rule that evaluates true on `mdClose10` at index 0: Price > 0. -/
def rulePriceGt0 : Val :=
  .dict [("indicator", .dict [("name", .str "Price")]),
         ("condition", .dict [("value", .num 0), ("symbol", .str ">")])]

/-- A rule that evaluates false on `mdClose10` at index 0: Price < 0. -/
def rulePriceLt0 : Val :=
  .dict [("indicator", .dict [("name", .str "Price")]),
         ("condition", .dict [("value", .num 0), ("symbol", .str "<")])]

/-- A `_sequence` item `{type: ty, index: n}`. -/
def seqItem (ty : String) (n : Int) : Val :=
  .dict [("type", .str ty), ("index", .num (n : Rat))]

/-- Decidable equality of embedded results, used by concrete evaluations. -/
instance {ε α : Type} [DecidableEq ε] [DecidableEq α] : DecidableEq (Except ε α) := fun a b =>
  match a, b with
  | .ok x, .ok y =>
      if h : x = y then isTrue (by rw [h]) else isFalse (by intro hc; cases hc; exact h rfl)
  | .error x, .error y =>
      if h : x = y then isTrue (by rw [h]) else isFalse (by intro hc; cases hc; exact h rfl)
  | .ok _, .error _ => isFalse (by intro hc; cases hc)
  | .error _, .ok _ => isFalse (by intro hc; cases hc)

/-- Whether an embedded Python computation returned normally (did not
raise). -/
def exceptIsOk {α : Type} : Except PyErr α → Bool
  | .ok _ => true
  | .error _ => false

/-- A keyed entry on which `valSimpleLoop` stops, returning `(False, m)`. -/
def entryFailsWith (kv : String × Val) (m : String) : Prop :=
  (strStartsWith kv.1 "rule" = true ∧ validate_rule kv.2 = .ok (false, m)) ∨
  (strStartsWith kv.1 "rule" = false ∧ strStartsWith kv.1 "operator" = true ∧
    (match kv.2 with | Val.str s => s == "AND" || s == "OR" | _ => false) = false ∧
    m = "Operator " ++ kv.1 ++ " must be AND or OR") ∨
  (strStartsWith kv.1 "rule" = false ∧ strStartsWith kv.1 "operator" = false ∧
    strStartsWith kv.1 "group" = true ∧ validate_rules kv.2 = .ok (false, m))

/-- The rule value referenced by a `_sequence` item of type `rule`, when
the item is well-formed and the referenced key exists. -/
def ruleRef (d : List (String × Val)) (it : Val) : Option Val :=
  match it with
  | .dict itd =>
      match dictGet itd "type", dictGet itd "index" with
      | some (.str "rule"), some idx => dictGet d ("rule" ++ pyFStr idx)
      | _, _ => none
  | _ => none

/-- A `_sequence` item that is a dict carrying `type: "rule"` and an
`index`. -/
def IsRuleItem (it : Val) : Prop :=
  ∃ itd idx, it = Val.dict itd ∧ dictGet itd "type" = some (.str "rule") ∧
    dictGet itd "index" = some idx

/-- A rule with an empty indicator name but a complete, well-formed
condition. -/
def ruleEmptyName : Val :=
  .dict [("indicator", .dict [("name", .str "")]),
         ("condition", .dict [("value", .num 30), ("symbol", .str "<")])]

/-- A rule whose condition symbol is not one of the six comparators. -/
def ruleBadSymbol : Val :=
  .dict [("indicator", .dict [("name", .str "RSI")]),
         ("condition", .dict [("value", .num 30), ("symbol", .str "><")])]

/-- The C1 counterexample tree: a `_sequence` that lists rule1 before
rule0, with no operator keys. -/
def c1tree : List (String × Val) :=
  [("_sequence", .list [seqItem "rule" 1, seqItem "rule" 0]),
   ("rule0", rulePriceGt0), ("rule1", rulePriceLt0)]

/-- `c1tree` with an `operator0` key added, so the sequence path is
taken. -/
def c1tree2 : List (String × Val) :=
  [("_sequence", .list [seqItem "rule" 1, seqItem "rule" 0]),
   ("rule0", rulePriceGt0), ("rule1", rulePriceLt0), ("operator0", .str "OR")]

/-- The C9 tree: the `_sequence` references only rule0; rule1 (bad symbol)
and operator0 (not AND/OR) are present but unreferenced. -/
def c9tree : List (String × Val) :=
  [("_sequence", .list [seqItem "rule" 0]),
   ("rule0", rulePriceGt0), ("rule1", ruleBadSymbol), ("operator0", .str "XOR")]

/-! ## Lemmas and claim theorems -/

theorem except_bind_pure {α β : Type} (e : Except PyErr α) (f : α → β) :
    (e >>= fun a => (pure (f a) : Except PyErr β)) = e.map f := by
  cases e <;> rfl

theorem evaluate_rules_dict (md : MarketData) (i : Nat) (d : List (String × Val)) :
    evaluate_rules md i (.dict d) =
      if hasSeqAndOp d then evaluate_complex_rules md i d
      else .ok (evaluate_simple_rules md i d) := by
  rw [evaluate_rules]

theorem evaluate_rules_num (md : MarketData) (i : Nat) (q : Rat) :
    evaluate_rules md i (.num q) = .error .typeError := by
  rw [evaluate_rules]
  intro d h
  cases h

theorem evaluate_complex_rules_eq (md : MarketData) (i : Nat) (d : List (String × Val)) :
    evaluate_complex_rules md i d =
      (pyIter ((dictGet d "_sequence").getD (.list []))) >>= fun items =>
        (evalSeq md i d items) >>= fun results =>
          match results with
          | [] => pure false
          | r :: rs => pure (applyOps d r rs 1) := by
  rw [evaluate_complex_rules]

theorem evalSeq_nil (md : MarketData) (i : Nat) (d : List (String × Val)) :
    evalSeq md i d [] = .ok [] := by
  rw [evalSeq.eq_def]

theorem evalSeq_rule_found (md : MarketData) (i : Nat) (d itemD : List (String × Val))
    (rest : List Val) (idx : Val) (rv : Val)
    (hty : dictGet itemD "type" = some (.str "rule"))
    (hidx : dictGet itemD "index" = some idx)
    (hr : dictGet d ("rule" ++ pyFStr idx) = some rv) :
    evalSeq md i d (.dict itemD :: rest) =
      (evalSeq md i d rest).map (fun tail => evaluate_rule md i rv :: tail) := by
  rw [evalSeq.eq_def]
  simp only [hty, hidx, hr, Option.getD_some]
  simp only [show ((some "rule" == some "rule") = true) from rfl, if_pos]
  exact except_bind_pure _ _

theorem evalSeq_rule_missing (md : MarketData) (i : Nat) (d itemD : List (String × Val))
    (rest : List Val) (idx : Val)
    (hty : dictGet itemD "type" = some (.str "rule"))
    (hidx : dictGet itemD "index" = some idx)
    (hr : dictGet d ("rule" ++ pyFStr idx) = none) :
    evalSeq md i d (.dict itemD :: rest) = evalSeq md i d rest := by
  rw [evalSeq.eq_def]
  simp only [hty, hidx, hr, Option.getD_some]
  simp

theorem evalSeq_group_found (md : MarketData) (i : Nat) (d itemD : List (String × Val))
    (rest : List Val) (idx : Val) (gv : Val)
    (hty : dictGet itemD "type" = some (.str "group"))
    (hidx : dictGet itemD "index" = some idx)
    (hg0 : dictGet d ("group" ++ pyFStr idx) = some gv) :
    evalSeq md i d (.dict itemD :: rest) =
      evaluate_rules md i gv >>= fun b =>
        evalSeq md i d rest >>= fun tail => pure (b :: tail) := by
  rw [evalSeq.eq_def]
  simp only [hty, hidx, Option.getD_some]
  simp only [show ((some "group" == some "rule") = false) from rfl,
    show ((some "group" == some "group") = true) from rfl, Bool.false_eq_true, if_false, if_pos]
  split
  · rename_i gv2 heq
    simp only [hidx, Option.getD_some] at heq
    rw [hg0] at heq
    cases heq
    rfl
  · rename_i heq
    simp only [hidx, Option.getD_some] at heq
    rw [hg0] at heq
    cases heq

theorem evalSeq_group_missing (md : MarketData) (i : Nat) (d itemD : List (String × Val))
    (rest : List Val) (idx : Val)
    (hty : dictGet itemD "type" = some (.str "group"))
    (hidx : dictGet itemD "index" = some idx)
    (hg0 : dictGet d ("group" ++ pyFStr idx) = none) :
    evalSeq md i d (.dict itemD :: rest) = evalSeq md i d rest := by
  rw [evalSeq.eq_def]
  simp only [hty, hidx, Option.getD_some]
  simp only [show ((some "group" == some "rule") = false) from rfl,
    show ((some "group" == some "group") = true) from rfl, Bool.false_eq_true, if_false, if_pos]
  split
  · rename_i gv2 heq
    simp only [hidx, Option.getD_some] at heq
    rw [hg0] at heq
    cases heq
  · rfl

theorem evalSeq_other (md : MarketData) (i : Nat) (d itemD : List (String × Val))
    (rest : List Val) (ty : String)
    (hty : dictGet itemD "type" = some (.str ty))
    (hrule : (ty == "rule") = false) (hgroup : (ty == "group") = false) :
    evalSeq md i d (.dict itemD :: rest) = evalSeq md i d rest := by
  rw [evalSeq.eq_def]
  simp only [hty, Option.getD_some]
  have hne1 : ty ≠ "rule" := by simpa using hrule
  have hne2 : ty ≠ "group" := by simpa using hgroup
  rw [if_neg (by simp [hne1]), if_neg (by simp [hne2])]

theorem validate_rules_seq (d : List (String × Val)) (seqV : Val)
    (h : dictGet d "_sequence" = some seqV) :
    validate_rules (.dict d) = pyIter seqV >>= fun items => valSeqLoop d items := by
  rw [validate_rules]
  simp only [h]

theorem validate_rules_simple (d : List (String × Val))
    (h : dictGet d "_sequence" = none) :
    validate_rules (.dict d) = valSimpleLoop d := by
  rw [validate_rules]
  simp only [h]

theorem validate_rules_num (q : Rat) :
    validate_rules (.num q) = .error .typeError := by
  rw [validate_rules.eq_def]

theorem valSimpleLoop_nil : valSimpleLoop [] = .ok (true, "Rules structure is valid") := by
  rw [valSimpleLoop.eq_def]

theorem valSimpleLoop_rule (k : String) (v : Val) (rest : List (String × Val))
    (hk : strStartsWith k "rule" = true) :
    valSimpleLoop ((k, v) :: rest) =
      validate_rule v >>= fun vm =>
        if vm.1 then valSimpleLoop rest else pure (false, vm.2) := by
  rw [valSimpleLoop.eq_def]
  simp only [hk, if_pos]
  congr 1
  funext vm
  by_cases h1 : vm.1 <;> simp [h1]

theorem valSimpleLoop_operator (k : String) (v : Val) (rest : List (String × Val))
    (hk1 : strStartsWith k "rule" = false) (hk2 : strStartsWith k "operator" = true) :
    valSimpleLoop ((k, v) :: rest) =
      (if (match v with
           | .str s => s == "AND" || s == "OR"
           | _ => false) then valSimpleLoop rest
       else pure (false, "Operator " ++ k ++ " must be AND or OR")) := by
  rw [valSimpleLoop.eq_def]
  simp only [hk1, hk2, Bool.false_eq_true, if_false, if_pos]
  by_cases h1 : (match v with
    | .str s => s == "AND" || s == "OR"
    | _ => false) = true <;> simp [h1]

theorem valSimpleLoop_group (k : String) (v : Val) (rest : List (String × Val))
    (hk1 : strStartsWith k "rule" = false) (hk2 : strStartsWith k "operator" = false)
    (hk3 : strStartsWith k "group" = true) :
    valSimpleLoop ((k, v) :: rest) =
      validate_rules v >>= fun vm =>
        if vm.1 then valSimpleLoop rest else pure (false, vm.2) := by
  rw [valSimpleLoop.eq_def]
  simp only [hk1, hk2, hk3, Bool.false_eq_true, if_false, if_pos]
  congr 1
  funext vm
  by_cases h1 : vm.1 <;> simp [h1]

theorem valSimpleLoop_other (k : String) (v : Val) (rest : List (String × Val))
    (hk1 : strStartsWith k "rule" = false) (hk2 : strStartsWith k "operator" = false)
    (hk3 : strStartsWith k "group" = false) :
    valSimpleLoop ((k, v) :: rest) = valSimpleLoop rest := by
  rw [valSimpleLoop.eq_def]
  simp only [hk1, hk2, hk3, Bool.false_eq_true, if_false]

theorem hasKey_eq (d : List (String × Val)) (k : String) :
    hasKey d k = (dictGet d k).isSome := by
  induction d with
  | nil => rfl
  | cons hd tl ih =>
      obtain ⟨k', v'⟩ := hd
      by_cases hk : (k' == k) <;> simp [hasKey, dictGet, hk] <;>
        simpa [hasKey] using ih

theorem valSeqLoop_nil (d : List (String × Val)) :
    valSeqLoop d [] = .ok (true, "Rules structure is valid") := by
  rw [valSeqLoop.eq_def]

theorem valSeqLoop_noType (d itd : List (String × Val)) (rest : List Val)
    (hty : dictGet itd "type" = none) :
    valSeqLoop d (.dict itd :: rest) =
      .ok (false, "Sequence items must have type and index") := by
  rw [valSeqLoop.eq_def]
  simp [pyContains, hasKey_eq, hty, bind, Except.bind, pure, Except.pure]

theorem valSeqLoop_noIndex (d itd : List (String × Val)) (rest : List Val) (tv : Val)
    (hty : dictGet itd "type" = some tv)
    (hidx : dictGet itd "index" = none) :
    valSeqLoop d (.dict itd :: rest) =
      .ok (false, "Sequence items must have type and index") := by
  rw [valSeqLoop.eq_def]
  simp [pyContains, hasKey_eq, hty, hidx, bind, Except.bind, pure, Except.pure]

theorem valSeqLoop_rule_found (d itd : List (String × Val)) (rest : List Val)
    (idx rv : Val)
    (hty : dictGet itd "type" = some (.str "rule"))
    (hidx : dictGet itd "index" = some idx)
    (hr : dictGet d ("rule" ++ pyFStr idx) = some rv) :
    valSeqLoop d (.dict itd :: rest) =
      validate_rule rv >>= fun vm =>
        if vm.1 then valSeqLoop d rest else pure (false, vm.2) := by
  rw [valSeqLoop.eq_def]
  simp only [pyContains, hasKey_eq, hty, hidx, pyGetItem, Option.isSome_some,
    bind, Except.bind, Bool.not_true, Bool.or_self, Bool.false_eq_true, if_false,
    show ((some "rule" == some "rule") = true) from rfl, if_pos, hr]
  congr 1
  funext vm
  by_cases h1 : vm.1 <;> simp [h1, pure, Except.pure]

theorem valSeqLoop_rule_missing (d itd : List (String × Val)) (rest : List Val)
    (idx : Val)
    (hty : dictGet itd "type" = some (.str "rule"))
    (hidx : dictGet itd "index" = some idx)
    (hr : dictGet d ("rule" ++ pyFStr idx) = none) :
    valSeqLoop d (.dict itd :: rest) =
      .ok (false, "Referenced rule " ++ ("rule" ++ pyFStr idx) ++ " not found") := by
  rw [valSeqLoop.eq_def]
  simp only [pyContains, hasKey_eq, hty, hidx, pyGetItem, Option.isSome_some,
    bind, Except.bind, Bool.not_true, Bool.or_self, Bool.false_eq_true, if_false,
    show ((some "rule" == some "rule") = true) from rfl, if_pos, hr]
  rfl

theorem valSeqLoop_group_found (d itd : List (String × Val)) (rest : List Val)
    (idx gv : Val)
    (hty : dictGet itd "type" = some (.str "group"))
    (hidx : dictGet itd "index" = some idx)
    (hg0 : dictGet d ("group" ++ pyFStr idx) = some gv) :
    valSeqLoop d (.dict itd :: rest) =
      validate_rules gv >>= fun vm =>
        if vm.1 then valSeqLoop d rest else pure (false, vm.2) := by
  rw [valSeqLoop.eq_def]
  simp only [pyContains, hasKey_eq, hty, hidx, pyGetItem, Option.isSome_some,
    bind, Except.bind, Bool.not_true, Bool.or_self, Bool.false_eq_true, if_false,
    show ((some "group" == some "rule") = false) from rfl,
    show ((some "group" == some "group") = true) from rfl, if_pos, pure, Except.pure]
  split
  · rename_i heq
    rw [hg0] at heq
    cases heq
  · rename_i gv2 heq
    rw [hg0] at heq
    cases heq
    cases hv : validate_rules gv with
    | error e => rfl
    | ok vm => by_cases h1 : vm.1 <;> simp [hv, h1]

theorem valSeqLoop_group_missing (d itd : List (String × Val)) (rest : List Val)
    (idx : Val)
    (hty : dictGet itd "type" = some (.str "group"))
    (hidx : dictGet itd "index" = some idx)
    (hg0 : dictGet d ("group" ++ pyFStr idx) = none) :
    valSeqLoop d (.dict itd :: rest) =
      .ok (false, "Referenced group " ++ ("group" ++ pyFStr idx) ++ " not found") := by
  rw [valSeqLoop.eq_def]
  simp only [pyContains, hasKey_eq, hty, hidx, pyGetItem, Option.isSome_some,
    bind, Except.bind, Bool.not_true, Bool.or_self, Bool.false_eq_true, if_false,
    show ((some "group" == some "rule") = false) from rfl,
    show ((some "group" == some "group") = true) from rfl, if_pos, pure, Except.pure]
  split
  · rfl
  · rename_i gv2 heq
    rw [hg0] at heq
    cases heq

theorem valSeqLoop_op_found (d itd : List (String × Val)) (rest : List Val)
    (idx ov : Val)
    (hty : dictGet itd "type" = some (.str "operator"))
    (hidx : dictGet itd "index" = some idx)
    (ho : dictGet d ("operator" ++ pyFStr idx) = some ov) :
    valSeqLoop d (.dict itd :: rest) =
      (if (match ov with
           | .str s => s == "AND" || s == "OR"
           | _ => false) then valSeqLoop d rest
       else pure (false, "Operator " ++ ("operator" ++ pyFStr idx) ++ " must be AND or OR")) := by
  rw [valSeqLoop.eq_def]
  simp only [pyContains, hasKey_eq, hty, hidx, pyGetItem, Option.isSome_some,
    bind, Except.bind, Bool.not_true, Bool.or_self, Bool.false_eq_true, if_false,
    show ((some "operator" == some "rule") = false) from rfl,
    show ((some "operator" == some "group") = false) from rfl,
    show ((some "operator" == some "operator") = true) from rfl, if_pos, ho, pure, Except.pure]
  cases ov with
  | str s => by_cases h1 : (s == "AND" || s == "OR") = true <;> simp [h1]
  | num q => rfl
  | bool b => rfl
  | null => rfl
  | list l => rfl
  | dict dd => rfl

theorem valSeqLoop_op_missing (d itd : List (String × Val)) (rest : List Val)
    (idx : Val)
    (hty : dictGet itd "type" = some (.str "operator"))
    (hidx : dictGet itd "index" = some idx)
    (ho : dictGet d ("operator" ++ pyFStr idx) = none) :
    valSeqLoop d (.dict itd :: rest) =
      .ok (false, "Referenced operator " ++ ("operator" ++ pyFStr idx) ++ " not found") := by
  rw [valSeqLoop.eq_def]
  simp only [pyContains, hasKey_eq, hty, hidx, pyGetItem, Option.isSome_some,
    bind, Except.bind, Bool.not_true, Bool.or_self, Bool.false_eq_true, if_false,
    show ((some "operator" == some "rule") = false) from rfl,
    show ((some "operator" == some "group") = false) from rfl,
    show ((some "operator" == some "operator") = true) from rfl, if_pos, ho]
  rfl

theorem valSeqLoop_other (d itd : List (String × Val)) (rest : List Val)
    (ty : String) (idx : Val)
    (hty : dictGet itd "type" = some (.str ty))
    (hidx : dictGet itd "index" = some idx)
    (hrule : (ty == "rule") = false) (hgroup : (ty == "group") = false)
    (hop : (ty == "operator") = false) :
    valSeqLoop d (.dict itd :: rest) = valSeqLoop d rest := by
  rw [valSeqLoop.eq_def]
  have hne1 : ty ≠ "rule" := by simpa using hrule
  have hne2 : ty ≠ "group" := by simpa using hgroup
  have hne3 : ty ≠ "operator" := by simpa using hop
  simp [pyContains, hasKey_eq, hty, hidx, pyGetItem, bind, Except.bind,
    pure, Except.pure, hne1, hne2, hne3]

theorem applyOps_enumFrom (d : List (String × Val)) (acc : Bool) (rs : List Bool) (n : Nat) :
    applyOps d acc rs (n + 1) =
      (List.enumFrom n rs).foldl
        (fun a p => applyOpVal (dictGet d ("operator" ++ toString p.1)) a p.2) acc := by
  induction rs generalizing acc n with
  | nil => rfl
  | cons r rs ih =>
      rw [applyOps]
      simp only [Nat.add_sub_cancel, List.enumFrom_cons, List.foldl_cons]
      exact ih _ (n + 1)

theorem applySimpleOps_enumFrom (operators : List Val) (acc : Bool) (rs : List Bool) (n : Nat) :
    applySimpleOps operators acc rs (n + 1) =
      (List.enumFrom n rs).foldl
        (fun a p => applyOpVal (operators.get? p.1) a p.2) acc := by
  induction rs generalizing acc n with
  | nil => rfl
  | cons r rs ih =>
      rw [applySimpleOps]
      simp only [Nat.add_sub_cancel, List.enumFrom_cons, List.foldl_cons]
      exact ih _ (n + 1)

theorem applyOps_all_absent (d : List (String × Val)) (acc : Bool) (rs : List Bool) (j : Nat)
    (h : ∀ n : Nat, dictGet d ("operator" ++ toString n) = none) :
    applyOps d acc rs j = acc := by
  induction rs generalizing acc j with
  | nil => rfl
  | cons r rs ih =>
      rw [applyOps]
      rw [h (j - 1)]
      exact ih acc (j + 1)

theorem collectSimple_eq (md : MarketData) (i : Nat) (d : List (String × Val)) :
    collectSimple md i d =
      ((d.filter (fun kv => strStartsWith kv.1 "rule")).map
          (fun kv => evaluate_rule md i kv.2),
       (d.filter (fun kv => !strStartsWith kv.1 "rule" &&
           strStartsWith kv.1 "operator")).map (fun kv => kv.2)) := by
  induction d with
  | nil => rfl
  | cons hd tl ih =>
      obtain ⟨k, v⟩ := hd
      by_cases h1 : strStartsWith k "rule" <;>
        by_cases h2 : strStartsWith k "operator" <;>
          simp [collectSimple, ih, h1, h2, List.filter]

theorem validate_rule_of_specValid (v : Val) (h : specValidRule v = true) :
    validate_rule v = .ok (true, "Rule is valid") := by
  cases v with
  | dict r =>
      simp only [specValidRule, Bool.and_eq_true] at h
      obtain ⟨h1, h2⟩ := h
      split at h1
      case h_2 => exact absurd h1 (by simp)
      case h_1 ind hind =>
        split at h2
        case h_2 => exact absurd h2 (by simp)
        case h_1 c hcond =>
          rw [Bool.and_eq_true] at h2
          obtain ⟨hval, hsym⟩ := h2
          split at hsym
          case h_2 => exact absurd hsym (by simp)
          case h_1 s hs =>
            rw [validate_rule]
            have hn : dictGet ind "name" ≠ none := by
              rw [hasKey_eq] at h1
              exact Option.isSome_iff_ne_none.mp h1
            simp [pyContains, pyGetItem, hasKey_eq, hind, hcond, hs, hval, h1, hn,
              bind, Except.bind, pure, Except.pure, hsym, Option.isSome_iff_ne_none]
  | num q => simp [specValidRule] at h
  | str s => simp [specValidRule] at h
  | bool b => simp [specValidRule] at h
  | null => simp [specValidRule] at h
  | list l => simp [specValidRule] at h

theorem exceptIsOk_bind {α β : Type} (e : Except PyErr α) (f : α → Except PyErr β) :
    exceptIsOk (e >>= f) = true ↔
      (∃ a, e = .ok a ∧ exceptIsOk (f a) = true) := by
  cases e with
  | ok a => simp [bind, Except.bind, exceptIsOk]
  | error e => simp [bind, Except.bind, exceptIsOk]

theorem validate_rule_wt (v : Val) (h : specWTRule v = true) :
    exceptIsOk (validate_rule v) = true := by
  cases v with
  | dict r =>
      simp only [specWTRule, Bool.and_eq_true] at h
      obtain ⟨h1, h2⟩ := h
      rw [validate_rule]
      cases hind : dictGet r "indicator" with
      | none =>
          simp [pyContains, hasKey_eq, hind, bind, Except.bind, pure, Except.pure, exceptIsOk]
      | some iv =>
          rw [hind] at h1
          cases hcond : dictGet r "condition" with
          | none =>
              simp [pyContains, hasKey_eq, hind, hcond, bind, Except.bind, pure,
                Except.pure, exceptIsOk]
          | some cv =>
              rw [hcond] at h2
              cases iv with
              | dict ind =>
                  cases cv with
                  | dict c =>
                      cases hname : dictGet ind "name" with
                      | none =>
                          simp [pyContains, pyGetItem, hasKey_eq, hind, hcond, hname,
                            bind, Except.bind, pure, Except.pure, exceptIsOk]
                      | some nv =>
                          cases hval : dictGet c "value" with
                          | none =>
                              simp [pyContains, pyGetItem, hasKey_eq, hind, hcond, hname,
                                hval, bind, Except.bind, pure, Except.pure, exceptIsOk]
                          | some vv =>
                              cases hsv : dictGet c "symbol" with
                              | none =>
                                  simp [pyContains, pyGetItem, hasKey_eq, hind, hcond,
                                    hname, hval, hsv, bind, Except.bind, pure,
                                    Except.pure, exceptIsOk]
                              | some sv =>
                                  cases sv with
                                  | str s =>
                                      by_cases hok : (s == "<" || s == ">" || s == "<=" ||
                                          s == ">=" || s == "==" || s == "!=") = true <;>
                                        simp [pyContains, pyGetItem, hasKey_eq, hind, hcond,
                                          hname, hval, hsv, hok, bind, Except.bind, pure,
                                          Except.pure, exceptIsOk]
                                  | num q =>
                                      simp [pyContains, pyGetItem, hasKey_eq, hind, hcond,
                                        hname, hval, hsv, bind, Except.bind, pure,
                                        Except.pure, exceptIsOk]
                                  | bool b =>
                                      simp [pyContains, pyGetItem, hasKey_eq, hind, hcond,
                                        hname, hval, hsv, bind, Except.bind, pure,
                                        Except.pure, exceptIsOk]
                                  | null =>
                                      simp [pyContains, pyGetItem, hasKey_eq, hind, hcond,
                                        hname, hval, hsv, bind, Except.bind, pure,
                                        Except.pure, exceptIsOk]
                                  | list l =>
                                      simp [pyContains, pyGetItem, hasKey_eq, hind, hcond,
                                        hname, hval, hsv, bind, Except.bind, pure,
                                        Except.pure, exceptIsOk]
                                  | dict dd =>
                                      simp [pyContains, pyGetItem, hasKey_eq, hind, hcond,
                                        hname, hval, hsv, bind, Except.bind, pure,
                                        Except.pure, exceptIsOk]
                  | num q => simp at h2
                  | str s => simp at h2
                  | bool b => simp at h2
                  | null => simp at h2
                  | list l => simp at h2
              | num q => simp at h1
              | str s => simp at h1
              | bool b => simp at h1
              | null => simp at h1
              | list l => simp at h1
  | num q => simp [specWTRule] at h
  | str s => simp [specWTRule] at h
  | bool b => simp [specWTRule] at h
  | null => simp [specWTRule] at h
  | list l => simp [specWTRule] at h

theorem valSeqLoop_all_valid (f : Val → Bool) (d : List (String × Val))
    (hf : ∀ v, f v = true → validate_rules v = .ok (true, "Rules structure is valid")) :
    ∀ items : List Val, items.all (specValidItem f d) = true →
      valSeqLoop d items = .ok (true, "Rules structure is valid")
  | [], _ => valSeqLoop_nil d
  | it :: rest, hall => by
      rw [List.all_cons, Bool.and_eq_true] at hall
      obtain ⟨hit, hrest⟩ := hall
      have ihrest := valSeqLoop_all_valid f d hf rest hrest
      cases it with
      | dict itd =>
          simp only [specValidItem] at hit
          split at hit
          case h_2 => simp at hit
          case h_1 ty idx hty hidx =>
            by_cases hr : (ty == "rule") = true
            · have hty2 : dictGet itd "type" = some (.str "rule") := by
                rwa [show ty = "rule" from by simpa using hr] at hty
              rw [if_pos hr] at hit
              cases hrk : dictGet d ("rule" ++ pyFStr idx) with
              | none => rw [hrk] at hit; simp at hit
              | some rv =>
                  rw [hrk] at hit
                  rw [valSeqLoop_rule_found d itd rest idx rv hty2 hidx hrk]
                  rw [validate_rule_of_specValid rv hit]
                  simpa [bind, Except.bind] using ihrest
            · by_cases hgp : (ty == "group") = true
              · have hty2 : dictGet itd "type" = some (.str "group") := by
                  rwa [show ty = "group" from by simpa using hgp] at hty
                rw [if_neg hr, if_pos hgp] at hit
                cases hgk : dictGet d ("group" ++ pyFStr idx) with
                | none => rw [hgk] at hit; simp at hit
                | some gv =>
                    rw [hgk] at hit
                    rw [valSeqLoop_group_found d itd rest idx gv hty2 hidx hgk]
                    rw [hf gv hit]
                    simpa [bind, Except.bind] using ihrest
              · by_cases hop : (ty == "operator") = true
                · have hty2 : dictGet itd "type" = some (.str "operator") := by
                    rwa [show ty = "operator" from by simpa using hop] at hty
                  rw [if_neg hr, if_neg hgp, if_pos hop] at hit
                  cases hok : dictGet d ("operator" ++ pyFStr idx) with
                  | none => rw [hok] at hit; simp at hit
                  | some ov =>
                      rw [hok] at hit
                      rw [valSeqLoop_op_found d itd rest idx ov hty2 hidx hok]
                      cases ov with
                      | str s => rw [if_pos hit]; exact ihrest
                      | num q => simp at hit
                      | bool b => simp at hit
                      | null => simp at hit
                      | list l => simp at hit
                      | dict dd => simp at hit
                · rw [if_neg hr, if_neg hgp, if_neg hop] at hit
                  simp at hit
      | num q => simp [specValidItem] at hit
      | str s => simp [specValidItem] at hit
      | bool b => simp [specValidItem] at hit
      | null => simp [specValidItem] at hit
      | list l => simp [specValidItem] at hit

theorem valSimpleLoop_all_valid (f : Val → Bool)
    (hf : ∀ v, f v = true → validate_rules v = .ok (true, "Rules structure is valid")) :
    ∀ l : List (String × Val), l.all (specValidEntry f) = true →
      valSimpleLoop l = .ok (true, "Rules structure is valid")
  | [], _ => valSimpleLoop_nil
  | (k, v) :: rest, hall => by
      rw [List.all_cons, Bool.and_eq_true] at hall
      obtain ⟨hent, hrest⟩ := hall
      have ihrest := valSimpleLoop_all_valid f hf rest hrest
      simp only [specValidEntry] at hent
      by_cases h1 : strStartsWith k "rule" = true
      · rw [if_pos h1] at hent
        rw [valSimpleLoop_rule k v rest h1]
        rw [validate_rule_of_specValid v hent]
        simpa [bind, Except.bind] using ihrest
      · by_cases h2 : strStartsWith k "operator" = true
        · rw [if_neg h1, if_pos h2] at hent
          rw [valSimpleLoop_operator k v rest (by simpa using h1) h2]
          cases v with
          | str s => rw [if_pos (by simpa using hent)]; exact ihrest
          | num q => simp at hent
          | bool b => simp at hent
          | null => simp at hent
          | list l => simp at hent
          | dict dd => simp at hent
        · by_cases h3 : strStartsWith k "group" = true
          · rw [if_neg h1, if_neg h2, if_pos h3] at hent
            rw [valSimpleLoop_group k v rest (by simpa using h1) (by simpa using h2) h3]
            rw [hf v hent]
            simpa [bind, Except.bind] using ihrest
          · rw [valSimpleLoop_other k v rest (by simpa using h1) (by simpa using h2)
              (by simpa using h3)]
            exact ihrest

theorem validate_rules_of_specValid :
    ∀ (n : Nat) (v : Val), specValidTree n v = true →
      validate_rules v = .ok (true, "Rules structure is valid")
  | 0, v, h => by simp [specValidTree] at h
  | n + 1, v, h => by
      cases v with
      | dict d =>
          simp only [specValidTree] at h
          cases hseq : dictGet d "_sequence" with
          | none =>
              rw [hseq] at h
              rw [validate_rules_simple d hseq]
              exact valSimpleLoop_all_valid (specValidTree n)
                (validate_rules_of_specValid n) d h
          | some seqV =>
              rw [hseq] at h
              cases seqV with
              | list items =>
                  rw [validate_rules_seq d (.list items) hseq]
                  simp only [pyIter, bind, Except.bind]
                  exact valSeqLoop_all_valid (specValidTree n) d
                    (validate_rules_of_specValid n) items h
              | num q => simp at h
              | str s => simp at h
              | bool b => simp at h
              | null => simp at h
              | dict dd => simp at h
      | num q => simp [specValidTree] at h
      | str s => simp [specValidTree] at h
      | bool b => simp [specValidTree] at h
      | null => simp [specValidTree] at h
      | list l => simp [specValidTree] at h

theorem exceptIsOk_exists {α : Type} (e : Except PyErr α) :
    exceptIsOk e = true ↔ ∃ a, e = .ok a := by
  cases e <;> simp [exceptIsOk]

theorem valSeqLoop_type_nonstr (d itd : List (String × Val)) (rest : List Val)
    (tv idx : Val)
    (hty : dictGet itd "type" = some tv)
    (hns : (match tv with | Val.str s => some s | _ => (none : Option String)) = none)
    (hidx : dictGet itd "index" = some idx) :
    valSeqLoop d (.dict itd :: rest) = valSeqLoop d rest := by
  rw [valSeqLoop.eq_def]
  simp [pyContains, hasKey_eq, hty, hidx, pyGetItem, bind, Except.bind,
    pure, Except.pure, hns]

theorem valSeqLoop_all_wt (f : Val → Bool) (d : List (String × Val))
    (hf : ∀ v, f v = true → exceptIsOk (validate_rules v) = true) :
    ∀ items : List Val, items.all (specWTItem f d) = true →
      exceptIsOk (valSeqLoop d items) = true
  | [], _ => by rw [valSeqLoop_nil]; rfl
  | it :: rest, hall => by
      rw [List.all_cons, Bool.and_eq_true] at hall
      obtain ⟨hit, hrest⟩ := hall
      have ihrest := valSeqLoop_all_wt f d hf rest hrest
      cases it with
      | dict itd =>
          cases hty : dictGet itd "type" with
          | none => rw [valSeqLoop_noType d itd rest hty]; rfl
          | some tv =>
              cases hidx : dictGet itd "index" with
              | none => rw [valSeqLoop_noIndex d itd rest tv hty hidx]; rfl
              | some idx =>
                  cases tv with
                  | str ty =>
                      simp only [specWTItem, hty, hidx] at hit
                      by_cases hr : (ty == "rule") = true
                      · have hty2 : dictGet itd "type" = some (.str "rule") := by
                          rwa [show ty = "rule" from by simpa using hr] at hty
                        rw [if_pos hr] at hit
                        cases hrk : dictGet d ("rule" ++ pyFStr idx) with
                        | none => rw [valSeqLoop_rule_missing d itd rest idx hty2 hidx hrk]; rfl
                        | some rv =>
                            rw [hrk] at hit
                            rw [valSeqLoop_rule_found d itd rest idx rv hty2 hidx hrk]
                            obtain ⟨vm, hvm⟩ := (exceptIsOk_exists _).mp (validate_rule_wt rv hit)
                            rw [hvm]
                            simp only [bind, Except.bind]
                            by_cases h1 : vm.1 = true
                            · rw [if_pos h1]; exact ihrest
                            · rw [if_neg h1]; rfl
                      · by_cases hgp : (ty == "group") = true
                        · have hty2 : dictGet itd "type" = some (.str "group") := by
                            rwa [show ty = "group" from by simpa using hgp] at hty
                          rw [if_neg hr, if_pos hgp] at hit
                          cases hgk : dictGet d ("group" ++ pyFStr idx) with
                          | none =>
                              rw [valSeqLoop_group_missing d itd rest idx hty2 hidx hgk]; rfl
                          | some gv =>
                              rw [hgk] at hit
                              rw [valSeqLoop_group_found d itd rest idx gv hty2 hidx hgk]
                              obtain ⟨vm, hvm⟩ := (exceptIsOk_exists _).mp (hf gv hit)
                              rw [hvm]
                              simp only [bind, Except.bind]
                              by_cases h1 : vm.1 = true
                              · rw [if_pos h1]; exact ihrest
                              · rw [if_neg h1]; rfl
                        · by_cases hop : (ty == "operator") = true
                          · have hty2 : dictGet itd "type" = some (.str "operator") := by
                              rwa [show ty = "operator" from by simpa using hop] at hty
                            cases hok : dictGet d ("operator" ++ pyFStr idx) with
                            | none =>
                                rw [valSeqLoop_op_missing d itd rest idx hty2 hidx hok]; rfl
                            | some ov =>
                                rw [valSeqLoop_op_found d itd rest idx ov hty2 hidx hok]
                                cases ov with
                                | str s =>
                                    by_cases h1 : (s == "AND" || s == "OR") = true
                                    · rw [if_pos h1]; exact ihrest
                                    · rw [if_neg h1]; rfl
                                | num q => rw [if_neg (by simp)]; rfl
                                | bool b => rw [if_neg (by simp)]; rfl
                                | null => rw [if_neg (by simp)]; rfl
                                | list l => rw [if_neg (by simp)]; rfl
                                | dict dd => rw [if_neg (by simp)]; rfl
                          · rw [valSeqLoop_other d itd rest ty idx hty hidx
                              (by simpa using hr) (by simpa using hgp) (by simpa using hop)]
                            exact ihrest
                  | num q =>
                      rw [valSeqLoop_type_nonstr d itd rest (.num q) idx hty rfl hidx]
                      exact ihrest
                  | bool b =>
                      rw [valSeqLoop_type_nonstr d itd rest (.bool b) idx hty rfl hidx]
                      exact ihrest
                  | null =>
                      rw [valSeqLoop_type_nonstr d itd rest .null idx hty rfl hidx]
                      exact ihrest
                  | list l =>
                      rw [valSeqLoop_type_nonstr d itd rest (.list l) idx hty rfl hidx]
                      exact ihrest
                  | dict dd =>
                      rw [valSeqLoop_type_nonstr d itd rest (.dict dd) idx hty rfl hidx]
                      exact ihrest
      | num q => simp [specWTItem] at hit
      | str s => simp [specWTItem] at hit
      | bool b => simp [specWTItem] at hit
      | null => simp [specWTItem] at hit
      | list l => simp [specWTItem] at hit

theorem valSimpleLoop_all_wt (f : Val → Bool)
    (hf : ∀ v, f v = true → exceptIsOk (validate_rules v) = true) :
    ∀ l : List (String × Val), l.all (specWTEntry f) = true →
      exceptIsOk (valSimpleLoop l) = true
  | [], _ => by rw [valSimpleLoop_nil]; rfl
  | (k, v) :: rest, hall => by
      rw [List.all_cons, Bool.and_eq_true] at hall
      obtain ⟨hent, hrest⟩ := hall
      have ihrest := valSimpleLoop_all_wt f hf rest hrest
      simp only [specWTEntry] at hent
      by_cases h1 : strStartsWith k "rule" = true
      · rw [if_pos h1] at hent
        rw [valSimpleLoop_rule k v rest h1]
        obtain ⟨vm, hvm⟩ := (exceptIsOk_exists _).mp (validate_rule_wt v hent)
        rw [hvm]
        simp only [bind, Except.bind]
        by_cases hb : vm.1 = true
        · rw [if_pos hb]; exact ihrest
        · rw [if_neg hb]; rfl
      · by_cases h2 : strStartsWith k "operator" = true
        · rw [valSimpleLoop_operator k v rest (by simpa using h1) h2]
          cases v with
          | str s =>
              by_cases hb : (s == "AND" || s == "OR") = true
              · rw [if_pos hb]; exact ihrest
              · rw [if_neg hb]; rfl
          | num q => rw [if_neg (by simp)]; rfl
          | bool b => rw [if_neg (by simp)]; rfl
          | null => rw [if_neg (by simp)]; rfl
          | list l => rw [if_neg (by simp)]; rfl
          | dict dd => rw [if_neg (by simp)]; rfl
        · by_cases h3 : strStartsWith k "group" = true
          · rw [if_neg h1, if_neg h2, if_pos h3] at hent
            rw [valSimpleLoop_group k v rest (by simpa using h1) (by simpa using h2) h3]
            obtain ⟨vm, hvm⟩ := (exceptIsOk_exists _).mp (hf v hent)
            rw [hvm]
            simp only [bind, Except.bind]
            by_cases hb : vm.1 = true
            · rw [if_pos hb]; exact ihrest
            · rw [if_neg hb]; rfl
          · rw [valSimpleLoop_other k v rest (by simpa using h1) (by simpa using h2)
              (by simpa using h3)]
            exact ihrest

theorem validate_rules_wt :
    ∀ (n : Nat) (v : Val), specWT n v = true → exceptIsOk (validate_rules v) = true
  | 0, v, h => by simp [specWT] at h
  | n + 1, v, h => by
      cases v with
      | dict d =>
          simp only [specWT] at h
          cases hseq : dictGet d "_sequence" with
          | none =>
              rw [hseq] at h
              rw [validate_rules_simple d hseq]
              exact valSimpleLoop_all_wt (specWT n) (validate_rules_wt n) d h
          | some seqV =>
              rw [hseq] at h
              cases seqV with
              | list items =>
                  rw [validate_rules_seq d (.list items) hseq]
                  simp only [pyIter, bind, Except.bind]
                  exact valSeqLoop_all_wt (specWT n) d (validate_rules_wt n) items h
              | num q => simp at h
              | str s => simp at h
              | bool b => simp at h
              | null => simp at h
              | dict dd => simp at h
      | num q => simp [specWT] at h
      | str s => simp [specWT] at h
      | bool b => simp [specWT] at h
      | null => simp [specWT] at h
      | list l => simp [specWT] at h

theorem valSimpleLoop_failfast :
    ∀ (pre : List (String × Val)) (kv : String × Val) (m : String)
      (suffix : List (String × Val)),
      (∀ e ∈ pre, entryPasses e) → entryFailsWith kv m →
      valSimpleLoop (pre ++ kv :: suffix) = .ok (false, m)
  | [], kv, m, suffix, _, hfail => by
      obtain ⟨k, v⟩ := kv
      rcases hfail with ⟨h1, h2⟩ | ⟨h1, h2, h3, h4⟩ | ⟨h1, h2, h3, h4⟩
      · rw [List.nil_append, valSimpleLoop_rule k v suffix h1, h2]
        simp [bind, Except.bind, pure, Except.pure]
      · rw [List.nil_append, valSimpleLoop_operator k v suffix h1 h2, if_neg (by simp [h3]), h4]
        rfl
      · rw [List.nil_append, valSimpleLoop_group k v suffix h1 h2 h3, h4]
        simp [bind, Except.bind, pure, Except.pure]
  | e :: pre, kv, m, suffix, hpass, hfail => by
      obtain ⟨k, v⟩ := e
      have hpe := hpass (k, v) (by simp)
      have hrest : ∀ x ∈ pre, entryPasses x := fun x hx => hpass x (by simp [hx])
      have ih := valSimpleLoop_failfast pre kv m suffix hrest hfail
      obtain ⟨hp1, hp2, hp3⟩ := hpe
      have hp1' : strStartsWith k "rule" = true →
          validate_rule v = .ok (true, "Rule is valid") := hp1
      have hp2' : strStartsWith k "rule" = false → strStartsWith k "operator" = true →
          ∃ s, v = .str s ∧ (s = "AND" ∨ s = "OR") := hp2
      have hp3' : strStartsWith k "rule" = false → strStartsWith k "operator" = false →
          strStartsWith k "group" = true →
          validate_rules v = .ok (true, "Rules structure is valid") := hp3
      by_cases h1 : strStartsWith k "rule" = true
      · rw [List.cons_append, valSimpleLoop_rule k v _ h1, hp1' h1]
        simpa [bind, Except.bind] using ih
      · by_cases h2 : strStartsWith k "operator" = true
        · obtain ⟨s, hs, hAndOr⟩ := hp2' (by simpa using h1) h2
          rw [List.cons_append, valSimpleLoop_operator k v _ (by simpa using h1) h2, hs]
          rw [if_pos (by rcases hAndOr with h | h <;> simp [h])]
          exact ih
        · by_cases h3 : strStartsWith k "group" = true
          · rw [List.cons_append,
              valSimpleLoop_group k v _ (by simpa using h1) (by simpa using h2) h3,
              hp3' (by simpa using h1) (by simpa using h2) h3]
            simpa [bind, Except.bind] using ih
          · rw [List.cons_append,
              valSimpleLoop_other k v _ (by simpa using h1) (by simpa using h2)
                (by simpa using h3)]
            exact ih

theorem evaluate_simple_rules_spec (md : MarketData) (i : Nat) (d : List (String × Val)) :
    evaluate_simple_rules md i d =
      specCombine (fun n => (collectSimple md i d).2.get? n) (collectSimple md i d).1 := by
  rw [evaluate_simple_rules]
  cases hc : collectSimple md i d with
  | mk results operators =>
      cases results with
      | nil => rfl
      | cons r rs =>
          simp only [specCombine]
          exact applySimpleOps_enumFrom operators r rs 0

theorem evaluate_complex_rules_spec (md : MarketData) (i : Nat) (d : List (String × Val))
    (items : List Val) (rs : List Bool)
    (hitems : pyIter ((dictGet d "_sequence").getD (.list [])) = .ok items)
    (hrs : evalSeq md i d items = .ok rs) :
    evaluate_complex_rules md i d =
      .ok (specCombine (fun n => dictGet d ("operator" ++ toString n)) rs) := by
  rw [evaluate_complex_rules_eq, hitems]
  simp only [bind, Except.bind, hrs]
  cases rs with
  | nil => rfl
  | cons r rest =>
      simp only [specCombine, pure, Except.pure]
      rw [applyOps_enumFrom d r rest 0]

theorem trailing_update_step (pct : Rat) (highs : List Rat) (entry i : Nat) (s : Rat)
    (o : Option Rat) (h : trailing_update pct highs entry i (some s) = .ok o) :
    ∃ t, o = some t ∧ s ≤ t := by
  rw [trailing_update] at h
  by_cases hp : 0 < pct
  · rw [if_pos hp] at h
    cases hm : listMax (highSlice highs entry i) with
    | none => rw [hm] at h; cases h
    | some hi =>
        rw [hm] at h
        simp only [Except.ok.injEq] at h
        subst h
        by_cases hlt : s < hi * (1 - pct / 100)
        · exact ⟨_, by rw [if_pos hlt], le_of_lt hlt⟩
        · exact ⟨_, by rw [if_neg hlt], le_refl s⟩
  · rw [if_neg hp] at h
    simp only [Except.ok.injEq] at h
    exact ⟨s, h.symm, le_refl s⟩

theorem run_trailing_mono (pct : Rat) (highs : List Rat) (entry : Nat) :
    ∀ (idxs : List Nat) (s s' : Rat),
      run_trailing pct highs entry idxs (some s) = .ok (some s') → s ≤ s'
  | [], s, s', h => by
      rw [run_trailing] at h
      simp only [Except.ok.injEq, Option.some.injEq] at h
      exact le_of_eq h
  | i :: rest, s, s', h => by
      rw [run_trailing] at h
      cases hstep : trailing_update pct highs entry i (some s) with
      | error e => rw [hstep] at h; cases h
      | ok o =>
          obtain ⟨t, hto, hst⟩ := trailing_update_step pct highs entry i s o hstep
          rw [hstep] at h
          simp only [bind, Except.bind] at h
          rw [hto] at h
          exact le_trans hst (run_trailing_mono pct highs entry rest t s' h)

theorem trailing_update_max (pct : Rat) (highs : List Rat) (entry i : Nat) (s hi : Rat)
    (hp : 0 < pct) (hm : listMax (highSlice highs entry i) = some hi) :
    trailing_update pct highs entry i (some s) =
      .ok (some (max s (hi * (1 - pct / 100)))) := by
  rw [trailing_update, if_pos hp, hm]
  show Except.ok (some (if s < hi * (1 - pct / 100) then hi * (1 - pct / 100) else s)) =
    Except.ok (some (max s (hi * (1 - pct / 100))))
  by_cases hlt : s < hi * (1 - pct / 100)
  · rw [if_pos hlt, max_eq_right (le_of_lt hlt)]
  · rw [if_neg hlt, max_eq_left (le_of_not_lt hlt)]

theorem evalSeq_rule_items (md : MarketData) (i : Nat) (d : List (String × Val)) :
    ∀ items : List Val, (∀ it ∈ items, IsRuleItem it) →
      evalSeq md i d items =
        .ok (((items.filterMap (ruleRef d)).map (evaluate_rule md i)))
  | [], _ => evalSeq_nil md i d
  | it :: rest, hall => by
      obtain ⟨itd, idx, hid, hty, hidx⟩ := hall it (by simp)
      subst hid
      have ih := evalSeq_rule_items md i d rest (fun x hx => hall x (by simp [hx]))
      cases hr : dictGet d ("rule" ++ pyFStr idx) with
      | none =>
          rw [evalSeq_rule_missing md i d itd rest idx hty hidx hr, ih]
          simp [ruleRef, hty, hidx, hr]
      | some rv =>
          rw [evalSeq_rule_found md i d itd rest idx rv hty hidx hr, ih]
          simp [ruleRef, hty, hidx, hr, Except.map]

/-- C6: the indicator value resolver never raises: an erroring body is
caught and yields `0.0`; with no matching computed column it returns the
candle close at the index for the name `"Price"`, and `0.0` for any other
unresolvable name. -/
theorem c6_resolver_fallback :
    (∀ (md : MarketData) (name : String) ( settings : Val) (i : Nat) (e : PyErr),
        get_indicator_value_body md name settings i = .error e →
        get_indicator_value md name settings i = 0) ∧
    (∀ (md : MarketData) ( settings : Val) (i : Nat),
        md.columns.filter (fun c => strContains c.1 "Price") = [] →
        ∀ h : i < md.close.length,
          get_indicator_value md "Price" settings i = md.close.get ⟨i, h⟩) ∧
    (∀ (md : MarketData) (name : String) ( settings : Val) (i : Nat),
        md.columns.filter (fun c => strContains c.1 name) = [] →
        (name == "Price") = false →
        get_indicator_value md name settings i = 0) := by
  refine ⟨?_, ?_, ?_⟩
  · intro md name settings i e h
    rw [get_indicator_value, h]
  · intro md settings i hfil h
    rw [get_indicator_value, get_indicator_value_body, hfil]
    simp [List.getElem?_eq_getElem, h]
  · intro md name settings i hfil hP
    rw [get_indicator_value, get_indicator_value_body, hfil]
    simp [hP]

/-- C6 witness: concrete resolver evaluations discharging each
hypothesis. -/
theorem c6_witness :
    get_indicator_value_body ⟨[], []⟩ "RSI" (.dict []) 0 = .ok 0 ∧
    (get_indicator_value ⟨[], [10]⟩ "Price" (.dict []) 0 = 10 ∧
     get_indicator_value ⟨[], [10]⟩ "RSI" (.dict []) 0 = 0) := by
  refine ⟨by decide, ?_, ?_⟩
  · have h := c6_resolver_fallback.2.1 ⟨[], [10]⟩ (.dict []) 0 (by decide)
      (by decide)
    simpa using h
  · exact c6_resolver_fallback.2.2 ⟨[], [10]⟩ "RSI" (.dict []) 0 (by decide) (by decide)

/-- C7: with `trailing_stop_pct > 0`, the active stop is non-decreasing
across any run of per-candle trailing updates, because the candidate stop
`max(High over [entry, i]) * (1 - trailing_stop_pct/100)` replaces the
current stop only when it is higher. -/
theorem c7_trailing_stop_monotone :
    ∀ (pct : Rat) (highs : List Rat) (entry : Nat), 0 < pct →
      (∀ (idxs : List Nat) (s s' : Rat),
          run_trailing pct highs entry idxs (some s) = .ok (some s') → s ≤ s') ∧
      (∀ (i : Nat) (s hi : Rat), listMax (highSlice highs entry i) = some hi →
          trailing_update pct highs entry i (some s) =
            .ok (some (max s (hi * (1 - pct / 100))))) := by
  intro pct highs entry hpct
  exact ⟨fun idxs s s' h => run_trailing_mono pct highs entry idxs s s' h,
    fun i s hi hm => trailing_update_max pct highs entry i s hi hpct hm⟩

/-- C7 witness: a two-step trailing run with rising highs raises the stop
and never lowers it. -/
theorem c7_witness :
    (0 : Rat) < 5 ∧
    run_trailing 5 [10, 20] 0 [0, 1] (some 1) = .ok (some 19) ∧
    (1 : Rat) ≤ 19 := by
  refine ⟨by norm_num, ?_, ?_⟩
  · rw [run_trailing,
      (c7_trailing_stop_monotone 5 [10, 20] 0 (by norm_num)).2 0 1 10 (by decide)]
    simp only [bind, Except.bind]
    rw [run_trailing,
      (c7_trailing_stop_monotone 5 [10, 20] 0 (by norm_num)).2 1 (max 1 (10 * (1 - 5 / 100)))
        20 (by decide)]
    simp only [bind, Except.bind]
    rw [run_trailing]
    norm_num
  · exact (c7_trailing_stop_monotone 5 [10, 20] 0 (by norm_num)).1 [0, 1] 1 19
      (by rw [run_trailing,
            (c7_trailing_stop_monotone 5 [10, 20] 0 (by norm_num)).2 0 1 10 (by decide)]
          simp only [bind, Except.bind]
          rw [run_trailing,
            (c7_trailing_stop_monotone 5 [10, 20] 0 (by norm_num)).2 1
              (max 1 (10 * (1 - 5 / 100))) 20 (by decide)]
          simp only [bind, Except.bind]
          rw [run_trailing]
          norm_num)

/-- C8: the position-sizing formulas: `fixed` (and any unknown policy)
gives `0.1*equity/price`; `percentage` gives
`(equity*risk_percentage/100)/price`; `risk_based` gives
`(equity*risk_percentage/100)/(price*stop_loss_pct/100)` with fallback to
the fixed formula when `stop_loss_pct = 0`; and the concrete scenario
`equity=10000, price=100, stop_loss_pct=2, risk_percentage=2` under
`risk_based` yields 100. -/
theorem c8_position_sizing :
    ∀ (equity price rp slp : Rat), 0 < price →
      (calculate_position_size "fixed" rp slp equity price = 0.1 * equity / price ∧
       (∀ pol : String, (pol == "fixed") = false → (pol == "percentage") = false →
          (pol == "risk_based") = false →
          calculate_position_size pol rp slp equity price = 0.1 * equity / price) ∧
       calculate_position_size "percentage" rp slp equity price =
         equity * rp / 100 / price ∧
       (slp ≠ 0 → calculate_position_size "risk_based" rp slp equity price =
         equity * rp / 100 / (price * slp / 100)) ∧
       calculate_position_size "risk_based" rp 0 equity price = 0.1 * equity / price) ∧
      calculate_position_size "risk_based" 2 2 10000 100 = 100 := by
  intro equity price rp slp _
  refine ⟨⟨?_, ?_, ?_, ?_, ?_⟩, ?_⟩
  · rw [calculate_position_size, if_pos (by decide)]
  · intro pol h1 h2 h3
    rw [calculate_position_size, if_neg (by simp [h1]), if_neg (by simp [h2]),
      if_neg (by simp [h3])]
  · rw [calculate_position_size, if_neg (by decide), if_pos (by decide)]
  · intro hslp
    rw [calculate_position_size, if_neg (by decide), if_neg (by decide), if_pos (by decide),
      if_neg (by simpa using hslp)]
  · rw [calculate_position_size, if_neg (by decide), if_neg (by decide), if_pos (by decide),
      if_pos (by decide)]
  · rw [calculate_position_size, if_neg (by decide), if_neg (by decide), if_pos (by decide),
      if_neg (by norm_num)]
    norm_num

/-- C8 witness: the scenario instance. -/
theorem c8_witness :
    (0 : Rat) < 100 ∧ calculate_position_size "risk_based" 2 2 10000 100 = 100 :=
  ⟨by norm_num, (c8_position_sizing 10000 100 2 2 (by norm_num)).2⟩

theorem applyOpVal_invalid (v : Val) (acc r : Bool)
    (h : (match v with | Val.str s => s == "AND" || s == "OR" | _ => false) = false) :
    applyOpVal (some v) acc r = acc := by
  cases v with
  | str s =>
      simp only [Bool.or_eq_false_iff] at h
      obtain ⟨hA, hO⟩ := h
      have hA' : s ≠ "AND" := by simpa using hA
      have hO' : s ≠ "OR" := by simpa using hO
      simp [applyOpVal, hA', hO']
  | num q => rfl
  | bool b => rfl
  | null => rfl
  | list l => rfl
  | dict dd => rfl

/-- C10: in both combination loops, term `j` (j at least 1) pairs with
operator index `j-1` — `operator{j-1}` looked up in the tree in the
sequence path, `operators[j-1]` in the declaration-order path — AND/OR
combine the accumulator with the term, and an absent or non-AND/OR
operator skips the term, leaving the accumulator unchanged; with no
operator keys at all the whole fold returns the first term unchanged. -/
theorem c10_operator_pairing :
    (∀ (d : List (String × Val)) (acc r : Bool) (rs : List Bool) (j : Nat),
        dictGet d ("operator" ++ toString j) = none →
        applyOps d acc (r :: rs) (j + 1) = applyOps d acc rs (j + 2)) ∧
    (∀ (d : List (String × Val)) (acc r : Bool) (rs : List Bool) (j : Nat) (v : Val),
        dictGet d ("operator" ++ toString j) = some v →
        (match v with | Val.str s => s == "AND" || s == "OR" | _ => false) = false →
        applyOps d acc (r :: rs) (j + 1) = applyOps d acc rs (j + 2)) ∧
    (∀ (d : List (String × Val)) (acc r : Bool) (rs : List Bool) (j : Nat),
        dictGet d ("operator" ++ toString j) = some (.str "AND") →
        applyOps d acc (r :: rs) (j + 1) = applyOps d (acc && r) rs (j + 2)) ∧
    (∀ (d : List (String × Val)) (acc r : Bool) (rs : List Bool) (j : Nat),
        dictGet d ("operator" ++ toString j) = some (.str "OR") →
        applyOps d acc (r :: rs) (j + 1) = applyOps d (acc || r) rs (j + 2)) ∧
    (∀ (ops : List Val) (acc r : Bool) (rs : List Bool) (j : Nat),
        ops.get? j = none →
        applySimpleOps ops acc (r :: rs) (j + 1) = applySimpleOps ops acc rs (j + 2)) ∧
    (∀ (ops : List Val) (acc r : Bool) (rs : List Bool) (j : Nat) (v : Val),
        ops.get? j = some v →
        (match v with | Val.str s => s == "AND" || s == "OR" | _ => false) = false →
        applySimpleOps ops acc (r :: rs) (j + 1) = applySimpleOps ops acc rs (j + 2)) ∧
    (∀ (ops : List Val) (acc r : Bool) (rs : List Bool) (j : Nat),
        ops.get? j = some (.str "AND") →
        applySimpleOps ops acc (r :: rs) (j + 1) = applySimpleOps ops (acc && r) rs (j + 2)) ∧
    (∀ (ops : List Val) (acc r : Bool) (rs : List Bool) (j : Nat),
        ops.get? j = some (.str "OR") →
        applySimpleOps ops acc (r :: rs) (j + 1) = applySimpleOps ops (acc || r) rs (j + 2)) ∧
    (∀ (d : List (String × Val)) (acc : Bool) (rs : List Bool) (j : Nat),
        (∀ n : Nat, dictGet d ("operator" ++ toString n) = none) →
        applyOps d acc rs j = acc) := by
  refine ⟨?_, ?_, ?_, ?_, ?_, ?_, ?_, ?_, ?_⟩
  · intro d acc r rs j h
    rw [applyOps]
    simp only [Nat.add_sub_cancel, h, applyOpVal]
  · intro d acc r rs j v h hv
    rw [applyOps]
    simp only [Nat.add_sub_cancel, h]
    rw [applyOpVal_invalid v acc r hv]
  · intro d acc r rs j h
    rw [applyOps]
    simp only [Nat.add_sub_cancel, h, applyOpVal]
  · intro d acc r rs j h
    rw [applyOps]
    simp only [Nat.add_sub_cancel, h, applyOpVal]
  · intro ops acc r rs j h
    rw [applySimpleOps]
    simp only [Nat.add_sub_cancel, h, applyOpVal]
  · intro ops acc r rs j v h hv
    rw [applySimpleOps]
    simp only [Nat.add_sub_cancel, h]
    rw [applyOpVal_invalid v acc r hv]
  · intro ops acc r rs j h
    rw [applySimpleOps]
    simp only [Nat.add_sub_cancel, h, applyOpVal]
  · intro ops acc r rs j h
    rw [applySimpleOps]
    simp only [Nat.add_sub_cancel, h, applyOpVal]
  · intro d acc rs j h
    exact applyOps_all_absent d acc rs j h

/-- C10 witness: concrete instances of the pairing and skip equations. -/
theorem c10_witness :
    (dictGet [("operator0", Val.str "AND")] ("operator" ++ toString 0) =
        some (.str "AND") ∧
      applyOps [("operator0", Val.str "AND")] true [false] (0 + 1) =
        applyOps [("operator0", Val.str "AND")] (true && false) [] (0 + 2)) ∧
    (dictGet [] ("operator" ++ toString 0) = none ∧
      applyOps [] true [false] (0 + 1) = applyOps [] true [] (0 + 2)) ∧
    (dictGet [("operator0", Val.str "XOR")] ("operator" ++ toString 0) =
        some (.str "XOR") ∧
      applyOps [("operator0", Val.str "XOR")] true [false] (0 + 1) =
        applyOps [("operator0", Val.str "XOR")] true [] (0 + 2)) ∧
    ((List.get? [Val.str "OR"] 0 = some (.str "OR")) ∧
      applySimpleOps [Val.str "OR"] false [true] (0 + 1) =
        applySimpleOps [Val.str "OR"] (false || true) [] (0 + 2)) := by
  refine ⟨⟨rfl, ?_⟩, ⟨rfl, ?_⟩, ⟨rfl, ?_⟩, ⟨rfl, ?_⟩⟩
  · exact c10_operator_pairing.2.2.1 [("operator0", Val.str "AND")] true false [] 0 rfl
  · exact c10_operator_pairing.1 [] true false [] 0 rfl
  · exact c10_operator_pairing.2.1 [("operator0", Val.str "XOR")] true false [] 0
      (Val.str "XOR") rfl (by decide)
  · exact c10_operator_pairing.2.2.2.2.2.2.2.1 [Val.str "OR"] false true [] 0 rfl

/-- C2: both evaluation paths combine the collected term results strictly
left-to-right with no precedence: the fold starts at `results[0]` and term
`j` is folded in with the operator associated to index `j-1` (the keyed
lookup in the sequence path, the collected operator list in the simple
path, `specCombine` being the common left fold); a run that collects no
rule/group results returns `false`. -/
theorem c2_left_fold_empty_law :
    (∀ (d : List (String × Val)) (r : Bool) (rs : List Bool),
        applyOps d r rs 1 =
          (List.enumFrom 0 rs).foldl
            (fun a p => applyOpVal (dictGet d ("operator" ++ toString p.1)) a p.2) r) ∧
    (∀ (ops : List Val) (r : Bool) (rs : List Bool),
        applySimpleOps ops r rs 1 =
          (List.enumFrom 0 rs).foldl (fun a p => applyOpVal (ops.get? p.1) a p.2) r) ∧
    (∀ f : Nat → Option Val, specCombine f [] = false) ∧
    (∀ (md : MarketData) (i : Nat) (d : List (String × Val)) (items : List Val)
        (rs : List Bool),
        hasSeqAndOp d = true →
        pyIter ((dictGet d "_sequence").getD (.list [])) = .ok items →
        evalSeq md i d items = .ok rs →
        evaluate_rules md i (.dict d) =
          .ok (specCombine (fun n => dictGet d ("operator" ++ toString n)) rs)) ∧
    (∀ (md : MarketData) (i : Nat) (d : List (String × Val)),
        hasSeqAndOp d = false →
        evaluate_rules md i (.dict d) =
          .ok (specCombine (fun n => (collectSimple md i d).2.get? n)
            (collectSimple md i d).1)) := by
  refine ⟨?_, ?_, ?_, ?_, ?_⟩
  · intro d r rs
    exact applyOps_enumFrom d r rs 0
  · intro ops r rs
    exact applySimpleOps_enumFrom ops r rs 0
  · intro f
    rfl
  · intro md i d items rs hseq hitems hrs
    rw [evaluate_rules_dict, if_pos hseq]
    exact evaluate_complex_rules_spec md i d items rs hitems hrs
  · intro md i d hseq
    rw [evaluate_rules_dict, if_neg (by simp [hseq])]
    rw [evaluate_simple_rules_spec]

/-- C2 witness: the sequence path of `c1tree2` (`_sequence` listing rule1
then rule0, combined by `operator0 = OR`) evaluates to false OR true; the
empty tree evaluates to false on both paths. -/
theorem c2_witness :
    (hasSeqAndOp c1tree2 = true ∧
     pyIter ((dictGet c1tree2 "_sequence").getD (.list [])) =
       .ok [seqItem "rule" 1, seqItem "rule" 0] ∧
     evalSeq mdClose10 0 c1tree2 [seqItem "rule" 1, seqItem "rule" 0] =
       .ok [false, true] ∧
     evaluate_rules mdClose10 0 (.dict c1tree2) =
       .ok (specCombine (fun n => dictGet c1tree2 ("operator" ++ toString n))
         [false, true]) ∧
     specCombine (fun n => dictGet c1tree2 ("operator" ++ toString n))
       [false, true] = true) ∧
    (hasSeqAndOp [] = false ∧
     evaluate_rules mdClose10 0 (.dict []) = .ok (specCombine (fun n => ([] : List Val).get? n) []) ∧
     specCombine (fun n => ([] : List Val).get? n) ([] : List Bool) = false) := by
  have hev : evalSeq mdClose10 0 c1tree2 [seqItem "rule" 1, seqItem "rule" 0] =
      .ok [false, true] := by
    rw [evalSeq_rule_items mdClose10 0 c1tree2 [seqItem "rule" 1, seqItem "rule" 0]
      (by intro it hit
          simp only [List.mem_cons, List.not_mem_nil, or_false] at hit
          rcases hit with h | h <;> subst h <;>
            exact ⟨_, _, rfl, rfl, rfl⟩)]
    decide
  refine ⟨⟨rfl, rfl, hev, ?_, by decide⟩, rfl, ?_, rfl⟩
  · exact c2_left_fold_empty_law.2.2.2.1 mdClose10 0 c1tree2
      [seqItem "rule" 1, seqItem "rule" 0] [false, true] rfl rfl hev
  · have h := c2_left_fold_empty_law.2.2.2.2 mdClose10 0 [] rfl
    simpa using h

theorem evalCond_outside_six (s : String) (iv cv : Rat)
    (h : (s == "<" || s == ">" || s == "<=" || s == ">=" || s == "==" || s == "!=") = false) :
    evalCond (.str s) iv cv = false := by
  simp only [Bool.or_eq_false_iff] at h
  obtain ⟨⟨⟨⟨⟨h1, h2⟩, h3⟩, h4⟩, h5⟩, h6⟩ := h
  simp [evalCond, h1, h2, h3, h4, h5, h6]

theorem evaluate_rule_false_of_evalCond (md : MarketData) (i : Nat)
    (rd cd : List (String × Val))
    (hrd : dictGet rd "condition" = some (.dict cd))
    (hsym : ∀ iv cv : Rat, evalCond ((dictGet cd "symbol").getD (.str "==")) iv cv = false) :
    evaluate_rule md i (.dict rd) = false := by
  rw [evaluate_rule, evaluate_rule_body]
  simp only [pyGet, hrd, Option.getD_some, bind, Except.bind]
  cases hind : (dictGet rd "indicator").getD (.dict []) with
  | dict ind =>
      simp only [pyGet]
      cases hfl : pyFloat ((dictGet cd "value").getD (.num 0)) with
      | error e => rfl
      | ok cv => simp [pure, Except.pure, hsym]
  | num q => rfl
  | str s => rfl
  | bool b => rfl
  | null => rfl
  | list l => rfl

/-- C5: a single rule evaluation degrades to `false` instead of
propagating an error — any error in the rule body is caught, a malformed
(unconvertible) condition value yields `false`, a condition symbol outside
the six comparators (or a non-string symbol) yields `false` — and the
surrounding tree evaluation continues: a tree combining an arbitrary
(possibly malformed) `rule0` with a well-formed `rule1` by `OR` still
returns a result, the OR of the two degraded evaluations. -/
theorem c5_rule_errors_degrade_to_false :
    (∀ (md : MarketData) (i : Nat) (rule : Val) (e : PyErr),
        evaluate_rule_body md i rule = .error e → evaluate_rule md i rule = false) ∧
    (∀ (md : MarketData) (i : Nat) (rd cd : List (String × Val)) (v : Val) (e : PyErr),
        dictGet rd "condition" = some (.dict cd) →
        dictGet cd "value" = some v → pyFloat v = .error e →
        evaluate_rule md i (.dict rd) = false) ∧
    (∀ (md : MarketData) (i : Nat) (rd cd : List (String × Val)) (s : String),
        dictGet rd "condition" = some (.dict cd) →
        dictGet cd "symbol" = some (.str s) →
        (s == "<" || s == ">" || s == "<=" || s == ">=" || s == "==" || s == "!=") = false →
        evaluate_rule md i (.dict rd) = false) ∧
    (∀ (md : MarketData) (i : Nat) (rd cd : List (String × Val)) (sv : Val),
        dictGet rd "condition" = some (.dict cd) →
        dictGet cd "symbol" = some sv →
        (match sv with | Val.str _ => false | _ => true) = true →
        evaluate_rule md i (.dict rd) = false) ∧
    (∀ (md : MarketData) (i : Nat) (bad good : Val),
        evaluate_rules md i
            (.dict [("rule0", bad), ("operator0", .str "OR"), ("rule1", good)]) =
          .ok (evaluate_rule md i bad || evaluate_rule md i good)) := by
  refine ⟨?_, ?_, ?_, ?_, ?_⟩
  · intro md i rule e h
    rw [evaluate_rule, h]
  · intro md i rd cd v e hrd hv hfl
    rw [evaluate_rule, evaluate_rule_body]
    simp only [pyGet, hrd, Option.getD_some, bind, Except.bind, hv, hfl]
    cases hind : (dictGet rd "indicator").getD (.dict []) with
    | dict ind => simp [pyGet, hfl]
    | num q => rfl
    | str s => rfl
    | bool b => rfl
    | null => rfl
    | list l => rfl
  · intro md i rd cd s hrd hs hsix
    apply evaluate_rule_false_of_evalCond md i rd cd hrd
    intro iv cv
    rw [hs, Option.getD_some]
    exact evalCond_outside_six s iv cv hsix
  · intro md i rd cd sv hrd hs hns
    apply evaluate_rule_false_of_evalCond md i rd cd hrd
    intro iv cv
    rw [hs, Option.getD_some]
    cases sv with
    | str s => simp at hns
    | num q => rfl
    | bool b => rfl
    | null => rfl
    | list l => rfl
    | dict dd => rfl
  · intro md i bad good
    rw [evaluate_rules_dict, if_neg (by simp [hasSeqAndOp, hasKey])]
    rw [evaluate_simple_rules_spec]
    simp [collectSimple, specCombine, applyOpVal, List.enumFrom,
      show strStartsWith "rule0" "rule" = true from by decide,
      show strStartsWith "operator0" "rule" = false from by decide,
      show strStartsWith "operator0" "operator" = true from by decide,
      show strStartsWith "rule1" "rule" = true from by decide]

/-- C5 witness: a rule whose condition value is a list (so `float(...)`
raises) evaluates to false; a rule with symbol `"><"` evaluates to false;
and a tree with that malformed rule0 OR a true rule1 evaluates to true. -/
theorem c5_witness :
    (evaluate_rule mdClose10 0
        (.dict [("condition", .dict [("value", .list [])])]) = false) ∧
    (evaluate_rule mdClose10 0
        (.dict [("condition", .dict [("value", .num 0), ("symbol", .str "><")])]) = false) ∧
    evaluate_rules mdClose10 0
        (.dict [("rule0", .dict [("condition", .dict [("value", .list [])])]),
                ("operator0", .str "OR"), ("rule1", rulePriceGt0)]) = .ok true := by
  refine ⟨?_, ?_, ?_⟩
  · exact c5_rule_errors_degrade_to_false.2.1 mdClose10 0 _ [("value", .list [])]
      (.list []) .typeError rfl rfl rfl
  · exact c5_rule_errors_degrade_to_false.2.2.1 mdClose10 0 _
      [("value", .num 0), ("symbol", .str "><")] "><" rfl rfl (by decide)
  · rw [c5_rule_errors_degrade_to_false.2.2.2.2 mdClose10 0
      (.dict [("condition", .dict [("value", .list [])])]) rulePriceGt0]
    decide

/-- C1 counterexample: `c1tree` contains a `_sequence` (listing rule1,
which is false, before rule0, which is true) but no operator key.  The
claim says evaluation order is determined strictly by `_sequence` whenever
it is present, which would make the first collected result — and, with no
operators, the overall result — `false` (third conjunct: the code's own
sequence-driven path indeed returns false).  But `evaluate_rules` takes
the declaration-order fallback (second conjunct) and returns `true`. -/
theorem c1_counterexample :
    evaluate_rules mdClose10 0 (.dict c1tree) = .ok true ∧
    evaluate_rules mdClose10 0 (.dict c1tree) =
      .ok (evaluate_simple_rules mdClose10 0 c1tree) ∧
    evaluate_complex_rules mdClose10 0 c1tree = .ok false := by
  have hsimple : evaluate_rules mdClose10 0 (.dict c1tree) =
      .ok (evaluate_simple_rules mdClose10 0 c1tree) := by
    rw [evaluate_rules_dict, if_neg (by decide)]
  have hseq : evalSeq mdClose10 0 c1tree [seqItem "rule" 1, seqItem "rule" 0] =
      .ok [false, true] := by
    rw [evalSeq_rule_items mdClose10 0 c1tree [seqItem "rule" 1, seqItem "rule" 0]
      (by intro it hit
          simp only [List.mem_cons, List.not_mem_nil, or_false] at hit
          rcases hit with h | h <;> subst h <;> exact ⟨_, _, rfl, rfl, rfl⟩)]
    decide
  refine ⟨?_, hsimple, ?_⟩
  · rw [hsimple]
    decide
  · rw [evaluate_complex_rules_spec mdClose10 0 c1tree
      [seqItem "rule" 1, seqItem "rule" 0] [false, true] rfl hseq]
    decide

/-- C1 amended: the `_sequence`-driven path is taken exactly when
`_sequence` is present AND at least one `operator*` key exists; otherwise
(no `_sequence`, or `_sequence` without any operator key) the
declaration-order fallback `_evaluate_simple_rules` is used.  When the
sequence path runs, rule terms are collected in exactly the order the
sequence lists them (third conjunct, for sequences of rule items). -/
theorem c1_amended_sequence_dispatch :
    (∀ (md : MarketData) (i : Nat) (d : List (String × Val)),
        hasKey d "_sequence" = true →
        d.any (fun kv => strStartsWith kv.1 "operator") = true →
        evaluate_rules md i (.dict d) = evaluate_complex_rules md i d) ∧
    (∀ (md : MarketData) (i : Nat) (d : List (String × Val)),
        hasKey d "_sequence" = false ∨
          d.any (fun kv => strStartsWith kv.1 "operator") = false →
        evaluate_rules md i (.dict d) = .ok (evaluate_simple_rules md i d)) ∧
    (∀ (md : MarketData) (i : Nat) (d : List (String × Val)) (items : List Val),
        (∀ it ∈ items, IsRuleItem it) →
        evalSeq md i d items =
          .ok (((items.filterMap (ruleRef d)).map (evaluate_rule md i)))) := by
  refine ⟨?_, ?_, ?_⟩
  · intro md i d h1 h2
    rw [evaluate_rules_dict, if_pos (by simp [hasSeqAndOp, h1, h2])]
  · intro md i d h
    rw [evaluate_rules_dict, if_neg (by rcases h with h | h <;> simp [hasSeqAndOp, h])]
  · intro md i d items h
    exact evalSeq_rule_items md i d items h

/-- C1 witness: `c1tree2` (same tree plus `operator0 = OR`) goes through
the sequence path; `c1tree` (no operator key) goes through the fallback;
and the sequence path collects its terms in sequence order. -/
theorem c1_witness :
    (hasKey c1tree2 "_sequence" = true ∧
     c1tree2.any (fun kv => strStartsWith kv.1 "operator") = true ∧
     evaluate_rules mdClose10 0 (.dict c1tree2) =
       evaluate_complex_rules mdClose10 0 c1tree2) ∧
    (c1tree.any (fun kv => strStartsWith kv.1 "operator") = false ∧
     evaluate_rules mdClose10 0 (.dict c1tree) =
       .ok (evaluate_simple_rules mdClose10 0 c1tree)) ∧
    ((∀ it ∈ [seqItem "rule" 1, seqItem "rule" 0], IsRuleItem it) ∧
     evalSeq mdClose10 0 c1tree [seqItem "rule" 1, seqItem "rule" 0] =
       .ok ((([seqItem "rule" 1, seqItem "rule" 0].filterMap
         (ruleRef c1tree)).map (evaluate_rule mdClose10 0)))) := by
  have hitems : ∀ it ∈ [seqItem "rule" 1, seqItem "rule" 0], IsRuleItem it := by
    intro it hit
    simp only [List.mem_cons, List.not_mem_nil, or_false] at hit
    rcases hit with h | h <;> subst h <;> exact ⟨_, _, rfl, rfl, rfl⟩
  refine ⟨⟨rfl, rfl, ?_⟩, ⟨rfl, ?_⟩, ⟨hitems, ?_⟩⟩
  · exact c1_amended_sequence_dispatch.1 mdClose10 0 c1tree2 rfl rfl
  · exact c1_amended_sequence_dispatch.2.1 mdClose10 0 c1tree (Or.inr rfl)
  · exact c1_amended_sequence_dispatch.2.2 mdClose10 0 c1tree
      [seqItem "rule" 1, seqItem "rule" 0] hitems

/-- C9: with a `_sequence` present, validation checks only the entries the
sequence references: `c9tree` contains a rule with an unsupported
condition symbol (`rule1`, second conjunct) and an operator key holding
`"XOR"` (third conjunct), yet `validate_rules` returns `(True, _)` because
its `_sequence` references only `rule0`. -/
theorem c9_validation_skips_unreferenced :
    validate_rules (.dict c9tree) = .ok (true, "Rules structure is valid") ∧
    validate_rule ruleBadSymbol =
      .ok (false, "Condition symbol must be one of: <, >, <=, >=, ==, !=") ∧
    dictGet c9tree "operator0" = some (.str "XOR") := by
  refine ⟨?_, by decide, rfl⟩
  rw [validate_rules_seq c9tree (.list [seqItem "rule" 0]) rfl]
  simp only [pyIter, bind, Except.bind, seqItem, Int.cast_zero]
  rw [valSeqLoop_rule_found c9tree [("type", .str "rule"), ("index", .num 0)] []
    (.num 0) rulePriceGt0 rfl rfl rfl]
  rw [show validate_rule rulePriceGt0 = .ok (true, "Rule is valid") from by decide]
  simp only [bind, Except.bind]
  rw [if_pos trivial]
  exact valSeqLoop_nil c9tree

/-- C4 counterexample: a mapping whose `rule0` entry is the number 1 makes
`validate_rules` raise (TypeError from `"indicator" not in 1`) rather than
return `(False, reason)`. -/
theorem c4_counterexample :
    validate_rules (.dict [("rule0", .num 1)]) = .error .typeError := by
  rw [validate_rules_simple [("rule0", .num 1)] rfl]
  rw [valSimpleLoop_rule "rule0" (.num 1) [] (by decide)]
  rw [show validate_rule (.num 1) = .error .typeError from by decide]
  rfl

/-- C4 amended: on well-typed trees — rule/group entries that are
dictionaries (with dictionary `indicator`/`condition` fields) and
`_sequence` entries that are lists of dictionaries — `validate_rules`
never raises: every structural problem is reported as a `(False, reason)`
return value (first conjunct), and the first failing entry's message is
the one reported, with any entries after it, valid or not, ignored
(second conjunct, fail-fast with no aggregation).  On arbitrary
non-container entry values it can raise, as the counterexample shows. -/
theorem c4_amended_no_raise_on_welltyped :
    (∀ (n : Nat) (v : Val), specWT n v = true →
        exceptIsOk (validate_rules v) = true) ∧
    (∀ (pre : List (String × Val)) (kv : String × Val) (m : String)
        (suffix : List (String × Val)),
        (∀ e ∈ pre, entryPasses e) → entryFailsWith kv m →
        valSimpleLoop (pre ++ kv :: suffix) = .ok (false, m)) :=
  ⟨validate_rules_wt, valSimpleLoop_failfast⟩

/-- C4 witness: a well-typed two-level tree validates without raising, and
a loop with a passing rule, then a bad operator, then further (even
ill-typed) entries reports exactly the bad operator's message. -/
theorem c4_witness :
    (specWT 2 (.dict [("rule0", rulePriceGt0), ("operator0", .str "AND"),
        ("group0", .dict [("rule0", rulePriceLt0)])]) = true ∧
     exceptIsOk (validate_rules (.dict [("rule0", rulePriceGt0),
        ("operator0", .str "AND"),
        ("group0", .dict [("rule0", rulePriceLt0)])])) = true) ∧
    ((∀ e ∈ [("rule0", rulePriceGt0)], entryPasses e) ∧
     entryFailsWith ("operator5", .str "XOR") "Operator operator5 must be AND or OR" ∧
     valSimpleLoop ([("rule0", rulePriceGt0)] ++
         ("operator5", .str "XOR") :: [("rule9", .num 7)]) =
       .ok (false, "Operator operator5 must be AND or OR")) := by
  have hpass : ∀ e ∈ [("rule0", rulePriceGt0)], entryPasses e := by
    intro e he
    simp only [List.mem_singleton] at he
    subst he
    refine ⟨fun _ => by decide, fun h _ => absurd h (by decide),
      fun h _ _ => absurd h (by decide)⟩
  have hfail : entryFailsWith ("operator5", .str "XOR")
      "Operator operator5 must be AND or OR" :=
    Or.inr (Or.inl ⟨by decide, by decide, by decide, rfl⟩)
  refine ⟨⟨by decide, ?_⟩, hpass, hfail, ?_⟩
  · exact c4_amended_no_raise_on_welltyped.1 2 _ (by decide)
  · exact c4_amended_no_raise_on_welltyped.2 [("rule0", rulePriceGt0)]
      ("operator5", .str "XOR") "Operator operator5 must be AND or OR"
      [("rule9", .num 7)] hpass hfail

/-- C3 counterexample: a strategy whose only rule has an EMPTY indicator
name (`name: ""`) — i.e. a rule "missing a non-empty indicator name" — is
accepted: `validate_strategy` returns `(True, _)`, because `validate_rule`
checks only that the `name` key is present, never that it is non-empty. -/
theorem c3_counterexample :
    validate_strategy (.dict [("buyRules", .dict [("rule0", ruleEmptyName)])]) =
      .ok (true, "Strategy structure is valid") := by
  have h1 : validate_rules (.dict [("rule0", ruleEmptyName)]) =
      .ok (true, "Rules structure is valid") := by
    rw [validate_rules_simple [("rule0", ruleEmptyName)] rfl]
    rw [valSimpleLoop_rule "rule0" ruleEmptyName [] (by decide)]
    rw [show validate_rule ruleEmptyName = .ok (true, "Rule is valid") from by decide]
    simp only [bind, Except.bind]
    rw [if_pos trivial]
    exact valSimpleLoop_nil
  rw [validate_strategy]
  simp [pyGet, pyContains, pyGetItem, pyTruthy, hasKey, dictGet, bind, Except.bind,
    pure, Except.pure, h1]

theorem rule_key_ne_sequence (s : String) : ("_sequence" == "rule" ++ s) = false := by
  apply beq_eq_false_iff_ne.mpr
  intro h
  have hd := congrArg String.data h
  rw [String.data_append] at hd
  simp at hd

/-- C3 amended: `validate` rejects each enumerated malformed case — a rule
missing the `indicator` key, missing the `condition` key, an indicator
missing the `name` KEY (presence only: an empty name string is accepted,
as the counterexample shows), a condition missing `value` or `symbol`, a
symbol outside the six comparators, a dangling `_sequence` reference, an
operator value other than AND/OR, and a top-level config whose `buyRules`
and `sellRules` are both absent or empty — and accepts every valid tree. -/
theorem c3_amended_validator_cases :
    (∀ rd : List (String × Val), dictGet rd "indicator" = none →
        validate_rule (.dict rd) = .ok (false, "Rule must have an indicator")) ∧
    (∀ (rd : List (String × Val)) (iv : Val),
        dictGet rd "indicator" = some iv → dictGet rd "condition" = none →
        validate_rule (.dict rd) = .ok (false, "Rule must have a condition")) ∧
    (∀ (rd ind : List (String × Val)) (cv : Val),
        dictGet rd "indicator" = some (.dict ind) →
        dictGet rd "condition" = some cv → dictGet ind "name" = none →
        validate_rule (.dict rd) = .ok (false, "Indicator must have a name")) ∧
    (∀ (rd ind cd : List (String × Val)) (nv : Val),
        dictGet rd "indicator" = some (.dict ind) →
        dictGet rd "condition" = some (.dict cd) →
        dictGet ind "name" = some nv → dictGet cd "value" = none →
        validate_rule (.dict rd) = .ok (false, "Condition must have a value")) ∧
    (∀ (rd ind cd : List (String × Val)) (nv vv : Val),
        dictGet rd "indicator" = some (.dict ind) →
        dictGet rd "condition" = some (.dict cd) →
        dictGet ind "name" = some nv → dictGet cd "value" = some vv →
        dictGet cd "symbol" = none →
        validate_rule (.dict rd) = .ok (false, "Condition must have a symbol")) ∧
    (∀ (rd ind cd : List (String × Val)) (nv vv : Val) (s : String),
        dictGet rd "indicator" = some (.dict ind) →
        dictGet rd "condition" = some (.dict cd) →
        dictGet ind "name" = some nv → dictGet cd "value" = some vv →
        dictGet cd "symbol" = some (.str s) →
        (s == "<" || s == ">" || s == "<=" || s == ">=" || s == "==" || s == "!=") = false →
        validate_rule (.dict rd) =
          .ok (false, "Condition symbol must be one of: <, >, <=, >=, ==, !=")) ∧
    (∀ idx : Val,
        validate_rules (.dict [("_sequence",
            .list [.dict [("type", .str "rule"), ("index", idx)]])]) =
          .ok (false, "Referenced rule " ++ ("rule" ++ pyFStr idx) ++ " not found")) ∧
    (∀ s : String, (s == "AND" || s == "OR") = false →
        validate_rules (.dict [("operator0", .str s)]) =
          .ok (false, "Operator operator0 must be AND or OR")) ∧
    (∀ cfg : List (String × Val),
        pyTruthy ((dictGet cfg "buyRules").getD .null) = false →
        pyTruthy ((dictGet cfg "sellRules").getD .null) = false →
        validate_strategy (.dict cfg) =
          .ok (false, "Strategy must have at least buyRules or sellRules")) ∧
    (∀ (n : Nat) (v : Val), specValidTree n v = true →
        validate_rules v = .ok (true, "Rules structure is valid")) := by
  refine ⟨?_, ?_, ?_, ?_, ?_, ?_, ?_, ?_, ?_, validate_rules_of_specValid⟩
  · intro rd h
    rw [validate_rule]
    simp [pyContains, hasKey_eq, h, bind, Except.bind, pure, Except.pure]
  · intro rd iv h1 h2
    rw [validate_rule]
    simp [pyContains, hasKey_eq, h1, h2, bind, Except.bind, pure, Except.pure]
  · intro rd ind cv h1 h2 h3
    rw [validate_rule]
    simp [pyContains, pyGetItem, hasKey_eq, h1, h2, h3, bind, Except.bind,
      pure, Except.pure]
  · intro rd ind cd nv h1 h2 h3 h4
    rw [validate_rule]
    simp [pyContains, pyGetItem, hasKey_eq, h1, h2, h3, h4, bind, Except.bind,
      pure, Except.pure]
  · intro rd ind cd nv vv h1 h2 h3 h4 h5
    rw [validate_rule]
    simp [pyContains, pyGetItem, hasKey_eq, h1, h2, h3, h4, h5, bind, Except.bind,
      pure, Except.pure]
  · intro rd ind cd nv vv s h1 h2 h3 h4 h5 h6
    rw [validate_rule]
    simp only [Bool.or_eq_false_iff] at h6
    obtain ⟨⟨⟨⟨⟨g1, g2⟩, g3⟩, g4⟩, g5⟩, g6⟩ := h6
    simp [pyContains, pyGetItem, hasKey_eq, h1, h2, h3, h4, h5, bind, Except.bind,
      pure, Except.pure, g1, g2, g3, g4, g5, g6]
  · intro idx
    rw [validate_rules_seq
      [("_sequence", .list [.dict [("type", .str "rule"), ("index", idx)]])]
      (.list [.dict [("type", .str "rule"), ("index", idx)]]) rfl]
    simp only [pyIter, bind, Except.bind]
    rw [valSeqLoop_rule_missing _ [("type", .str "rule"), ("index", idx)] [] idx rfl rfl
      (by rw [dictGet]; simp [rule_key_ne_sequence, dictGet])]
  · intro s h
    rw [validate_rules_simple [("operator0", .str s)] rfl]
    rw [valSimpleLoop_operator "operator0" (.str s) [] (by decide) (by decide)]
    rw [if_neg (by simp [h])]
    rfl
  · intro cfg hb hs
    rw [validate_strategy]
    simp [pyGet, hb, hs, bind, Except.bind, pure, Except.pure]

/-- C3 witness: concrete instances of the malformed cases and of a valid
tree being accepted. -/
theorem c3_witness :
    (dictGet ([] : List (String × Val)) "indicator" = none ∧
     validate_rule (.dict []) = .ok (false, "Rule must have an indicator")) ∧
    ((("><" == "<" || "><" == ">" || "><" == "<=" || "><" == ">=" ||
        "><" == "==" || "><" == "!=") = false) ∧
     validate_rule ruleBadSymbol =
       .ok (false, "Condition symbol must be one of: <, >, <=, >=, ==, !=")) ∧
    validate_rules (.dict [("_sequence",
        .list [.dict [("type", .str "rule"), ("index", .num 0)]])]) =
      .ok (false, "Referenced rule " ++ ("rule" ++ pyFStr (.num 0)) ++ " not found") ∧
    (("XOR" == "AND" || "XOR" == "OR") = false ∧
     validate_rules (.dict [("operator0", .str "XOR")]) =
       .ok (false, "Operator operator0 must be AND or OR")) ∧
    validate_strategy (.dict []) =
      .ok (false, "Strategy must have at least buyRules or sellRules") ∧
    (specValidTree 1 (.dict [("rule0", rulePriceGt0)]) = true ∧
     validate_rules (.dict [("rule0", rulePriceGt0)]) =
       .ok (true, "Rules structure is valid")) := by
  refine ⟨⟨rfl, ?_⟩, ⟨by decide, ?_⟩, ?_, ⟨by decide, ?_⟩, ?_, ⟨by decide, ?_⟩⟩
  · exact c3_amended_validator_cases.1 [] rfl
  · exact c3_amended_validator_cases.2.2.2.2.2.1
      [("indicator", .dict [("name", .str "RSI")]),
       ("condition", .dict [("value", .num 30), ("symbol", .str "><")])]
      [("name", .str "RSI")] [("value", .num 30), ("symbol", .str "><")]
      (.str "RSI") (.num 30) "><" rfl rfl rfl rfl rfl (by decide)
  · exact c3_amended_validator_cases.2.2.2.2.2.2.1 (.num 0)
  · exact c3_amended_validator_cases.2.2.2.2.2.2.2.1 "XOR" (by decide)
  · exact c3_amended_validator_cases.2.2.2.2.2.2.2.2.1 [] rfl rfl
  · exact c3_amended_validator_cases.2.2.2.2.2.2.2.2.2 1
      (.dict [("rule0", rulePriceGt0)]) (by decide)

